import Mathlib

/-!
Verification of the rsp_trace_server core: a shallow embedding of
`rsp_server/cpu_state.py`, `rsp_server/rsp_utils.py` and
`rsp_server/minimal_rsp_server.py`, together with proofs and refutations of
the specified properties (reversibility, cursor bounds, breakpoint
semantics, memory sentinel, framing checksum law, register encodings).

Modeling conventions:
* Python byte strings and text strings are `String` / `List Char`; raw wire
  bytes are `List Nat`.
* The sparse memory dict is an association list, newest entry first; lookup
  takes the most recent binding, matching dict assignment.
* Python runtime exceptions (failed `int(...)` parses, failed `assert`s)
  are modeled by `Option`-valued handlers returning `none`; code paths the
  source only reaches with well-formed data are modeled totally and the
  corresponding theorems carry well-formedness hypotheses.
* `logging` calls are pure no-ops and are not modeled.
-/

/-! ### Hex and decimal codec (rsp_utils.py and f-string formatting) -/

def isHexChar (c : Char) : Bool :=
  (('0' ≤ c && c ≤ '9') || ('a' ≤ c && c ≤ 'f') || ('A' ≤ c && c ≤ 'F'))

def isDecChar (c : Char) : Bool :=
  ('0' ≤ c && c ≤ '9')

/-- Numeric value of one hex digit; non-digits map to 0 (the source instead
raises `ValueError`, so theorems about parsing carry hex-ness hypotheses). -/
def hexDigVal (c : Char) : Nat :=
  if '0' ≤ c && c ≤ '9' then c.toNat - '0'.toNat
  else if 'a' ≤ c && c ≤ 'f' then c.toNat - 'a'.toNat + 10
  else if 'A' ≤ c && c ≤ 'F' then c.toNat - 'A'.toNat + 10
  else 0

/-- Value of a hex digit string, most significant first (`int(s, 16)`). -/
def hexVal (cs : List Char) : Nat :=
  cs.foldl (fun a c => 16 * a + hexDigVal c) 0

/-- `'40' -> 64` (rsp_utils.hexstr_to_int). -/
def hexstr_to_int (s : String) : Nat :=
  hexVal s.data

/-- Lowercase hex digit character for a value below 16. -/
def hexDigitChar (n : Nat) : Char :=
  if n < 10 then Char.ofNat ('0'.toNat + n) else Char.ofNat ('a'.toNat + (n - 10))

/-- Minimal lowercase hex rendering, fuelled so that it reduces in the
kernel; `natToHex` below instantiates the fuel adequately. -/
def natToHexF (fuel n : Nat) : List Char :=
  match fuel with
  | 0 => []
  | fuel + 1 =>
    if n < 16 then [hexDigitChar n]
    else natToHexF fuel (n / 16) ++ [hexDigitChar (n % 16)]

/-- Minimal lowercase hex rendering of a natural number (`f"{n:x}"`). -/
def natToHex (n : Nat) : List Char :=
  natToHexF (n + 1) n

/-- Zero-padded lowercase hex rendering (`f"{n:0{w}x}"`). -/
def formatHexPad (w n : Nat) : List Char :=
  List.replicate (w - (natToHex n).length) '0' ++ natToHex n

/-- Reverse the byte pairs of an even-length hex string, as a char list:
`"ABCDEF" -> "EFCDAB"` (rsp_utils.swap_endianess).  The source asserts the
length is even; call sites model that assert explicitly. -/
def swapPairs : List Char → List Char
  | a :: b :: rest => swapPairs rest ++ [a, b]
  | other => other

def swap_endianess (s : String) : String :=
  String.mk (swapPairs s.data)

/-- Strict decimal parse (`int(s)` for nonnegative input). -/
def decParse (cs : List Char) : Option Nat :=
  if cs.isEmpty then none
  else if cs.all isDecChar then
    some (cs.foldl (fun a c => 10 * a + (c.toNat - '0'.toNat)) 0)
  else none

/-- Strict decimal integer parse (`int(s)`), allowing a leading minus. -/
def decIntParse (cs : List Char) : Option Int :=
  match cs with
  | '-' :: rest => (decParse rest).map (fun n => -(n : Int))
  | _ => (decParse cs).map (fun n => (n : Int))

/-- Strict hex parse (`int(s, 16)` for plain digit strings). -/
def hexParse (cs : List Char) : Option Nat :=
  if cs.isEmpty then none
  else if cs.all isHexChar then some (hexVal cs)
  else none

/-! ### Sparse memory (the `memory` dict of CpuState) -/

/-- value to return when reading uninitialized memory -/
def UNSET_MEM_VALUE : Nat := 0xCA

/-- The memory dict: an association list, newest binding first. -/
abbrev Mem := List (Nat × Nat)

def memLookup : Mem → Nat → Option Nat
  | [], _ => none
  | (k, v) :: rest, a => if k = a then some v else memLookup rest a

/-- `memory[addr] = v` (dict assignment). -/
def memSet (m : Mem) (a v : Nat) : Mem :=
  (a, v) :: m

/-- One observed byte: `memory.get(a)` defaulted to the sentinel. -/
def memRead (m : Mem) (a : Nat) : Nat :=
  (memLookup m a).getD UNSET_MEM_VALUE

/-- The byte-write loop of `CpuState.set_mem`: for each
`offs in range(len(hexstr) // 2)`, write `int(hexstr[offs:offs+2], 16)` at
`addr + offs`.  Note the source slides the slice by ONE character per byte
(`hexstr[offs : offs + 2]`), not by two; this embedding reproduces that. -/
def setMemChars (m : Mem) (addr : Nat) (cs : List Char) : Mem :=
  (List.range (cs.length / 2)).foldl
    (fun acc offs => memSet acc (addr + offs) (hexVal ((cs.drop offs).take 2))) m

/-- The read loop of `CpuState.get_mem`, already joined to a hex string. -/
def getMemChars (m : Mem) (addr num_bytes : Nat) : List Char :=
  ((List.range num_bytes).map (fun i => memRead m (addr + i))).flatMap
    (fun b => formatHexPad 2 b)

/-! ### CPU state (cpu_state.py) -/

/-- A normalized trace record: `pc`, optional register writes (dict in
insertion order) and optional memory writes.  A reverse delta is
structurally the same type. -/
structure TraceEntry where
  pc : Nat
  rw : Option (List (String × Nat))
  mw : Option (List (String × String))
deriving DecidableEq, Repr

instance : Inhabited TraceEntry := ⟨⟨0, none, none⟩⟩

/-- The `{}` placeholder the server preloads into `rev_trace`.  In the
source this is an empty dict; applying it would raise `KeyError` on `pc`,
and the session invariant proved below shows it is never applied. -/
def emptyRev : TraceEntry := ⟨0, none, none⟩

structure CpuState where
  NUM_REGISTERS : Nat
  PC_REG : Nat
  memory : Mem
  registers : List Nat
  running : Bool
deriving DecidableEq, Repr

def CpuState.pc (s : CpuState) : Nat :=
  s.registers.getD s.PC_REG 0

def CpuState.set_pc (s : CpuState) (v : Nat) : CpuState :=
  { s with registers := s.registers.set s.PC_REG v }

def CpuState.set_mem (s : CpuState) (hex_addr hexstr : String) : CpuState :=
  { s with memory := setMemChars s.memory (hexstr_to_int hex_addr) hexstr.data }

def CpuState.get_mem (s : CpuState) (hex_addr : String) (num_bytes : Nat) : String :=
  String.mk (getMemChars s.memory (hexstr_to_int hex_addr) num_bytes)

/-- Fresh state: zeroed register file, `set_pc(init_pc)`, empty memory. -/
def CpuState.init (numRegs pcReg init_pc : Nat) : CpuState :=
  CpuState.set_pc ⟨numRegs, pcReg, [], List.replicate numRegs 0, true⟩ init_pc

/-- RiscvCpuState: PC_REG = 32, NUM_REGISTERS = 33. -/
def RiscvCpuState.init (init_pc : Nat) : CpuState :=
  CpuState.init 33 32 init_pc

/-- Register index denoted by a `rw` key: keys of form `x<decimal>`.
Other keys are ignored by the source; an `x`-key whose tail is not decimal
would raise in the source and is excluded by well-formedness hypotheses. -/
def xRegNum (k : String) : Option Nat :=
  match k.data with
  | 'x' :: rest => decParse rest
  | _ => none

/-- The register-write loop of `CpuState.update`: apply each `x<k>` write in
order, returning the final register file and the reverse entries (key paired
with the value it held just before its write), in iteration order. -/
def applyRw : List Nat → List (String × Nat) → List Nat × List (String × Nat)
  | regs, [] => (regs, [])
  | regs, (k, v) :: rest =>
    match xRegNum k with
    | some n =>
      let old := regs.getD n 0
      let res := applyRw (regs.set n v) rest
      (res.1, (k, old) :: res.2)
    | none => applyRw regs rest

/-- The memory-write loop of `CpuState.update`: for each `(addr, hexval)`
pair capture `get_mem(addr, len(hexval) // 2)` and then `set_mem`. -/
def applyMw : Mem → List (String × String) → Mem × List (String × String)
  | m, [] => (m, [])
  | m, (a, hexv) :: rest =>
    let addr := hexstr_to_int a
    let old := String.mk (getMemChars m addr (hexv.data.length / 2))
    let res := applyMw (setMemChars m addr hexv.data) rest
    (res.1, (a, old) :: res.2)

/-- `CpuState.update`: record the old pc, set the new pc, replay register
writes and then memory writes, returning the new state and the reverse
trace entry. -/
def CpuState.update (s : CpuState) (e : TraceEntry) : CpuState × TraceEntry :=
  let revPc := s.pc
  let s1 := s.set_pc e.pc
  let rwRes : List Nat × Option (List (String × Nat)) :=
    match e.rw with
    | some rw => let r := applyRw s1.registers rw; (r.1, some r.2)
    | none => (s1.registers, none)
  let s2 := { s1 with registers := rwRes.1 }
  let mwRes : Mem × Option (List (String × String)) :=
    match e.mw with
    | some mw => let r := applyMw s2.memory mw; (r.1, some r.2)
    | none => (s2.memory, none)
  ({ s2 with memory := mwRes.1 }, ⟨revPc, rwRes.2, mwRes.2⟩)

/-! ### Replay engine and RSP server (minimal_rsp_server.py) -/

structure ServerState where
  trace : List TraceEntry
  rev_trace : List TraceEntry
  cpu_state : CpuState
  trace_idx : Nat
  breakpoints : List Nat
  cont_thread : Int
  state_query_thread : Int
deriving DecidableEq, Repr

/-- `MinimalRspServer.__init__`: cursor at 0, reverse trace preloaded with
empty deltas, no breakpoints, thread ids -1. -/
def mkServer (trace : List TraceEntry) (cpu : CpuState) : ServerState :=
  ⟨trace, trace.map (fun _ => emptyRev), cpu, 0, [], -1, -1⟩

/-- `MinimalRspServer.stop`: clear the running flag of the CPU state. -/
def stopServer (S : ServerState) : ServerState :=
  { S with cpu_state := { S.cpu_state with running := false } }

/-- `_step_inner`: at end of trace stop and return false; otherwise apply
the current entry, store its reverse delta, and advance the cursor. -/
def step_inner (S : ServerState) : ServerState × Bool :=
  if S.trace.length ≤ S.trace_idx then (stopServer S, false)
  else
    let entry := S.trace.getD S.trace_idx default
    let res := S.cpu_state.update entry
    ({ S with cpu_state := res.1,
              rev_trace := S.rev_trace.set S.trace_idx res.2,
              trace_idx := S.trace_idx + 1 }, true)

/-- `_reverse_step_inner`: at index 0 stop and return false; otherwise
retreat the cursor and apply the stored reverse delta. -/
def reverse_step_inner (S : ServerState) : ServerState × Bool :=
  if S.trace_idx = 0 then (stopServer S, false)
  else
    let idx := S.trace_idx - 1
    let rev := S.rev_trace.getD idx default
    let res := S.cpu_state.update rev
    ({ S with trace_idx := idx, cpu_state := res.1 }, true)

/-- `_step`: one forward transition, always replying `S05` (the breakpoint
test in the source selects between two identical returns). -/
def step_command (S : ServerState) : ServerState × String :=
  let S1 := (step_inner S).1
  if S1.cpu_state.pc ∈ S1.breakpoints then (S1, "S05") else (S1, "S05")

theorem step_inner_true (S S' : ServerState) (h : step_inner S = (S', true)) :
    S.trace_idx < S.trace.length ∧ S'.trace = S.trace ∧
      S'.trace_idx = S.trace_idx + 1 ∧ S'.breakpoints = S.breakpoints := by
  unfold step_inner at h
  split at h
  · simp at h
  · rename_i hlt
    obtain ⟨hS, -⟩ := Prod.mk.injEq .. ▸ h
    subst hS
    exact ⟨Nat.lt_of_not_le hlt, rfl, rfl, rfl⟩

/-- `_cont`: step until a post-step PC hits a breakpoint (`S05`) or the
trace is exhausted (`W00`). -/
def cont_loop (S : ServerState) : ServerState × String :=
  match h : step_inner S with
  | (S1, true) =>
    if S1.cpu_state.pc ∈ S1.breakpoints then (S1, "S05")
    else cont_loop S1
  | (S1, false) => (stopServer S1, "W00")
termination_by S.trace.length - S.trace_idx
decreasing_by
  obtain ⟨h1, h2, h3, -⟩ := step_inner_true _ _ h
  rw [h2, h3]
  omega

theorem reverse_step_inner_true (S S' : ServerState)
    (h : reverse_step_inner S = (S', true)) :
    0 < S.trace_idx ∧ S'.trace = S.trace ∧
      S'.trace_idx = S.trace_idx - 1 ∧ S'.breakpoints = S.breakpoints ∧
      S'.rev_trace = S.rev_trace := by
  unfold reverse_step_inner at h
  split at h
  · simp at h
  · rename_i hne
    obtain ⟨hS, -⟩ := Prod.mk.injEq .. ▸ h
    subst hS
    exact ⟨Nat.pos_of_ne_zero hne, rfl, rfl, rfl, rfl⟩

/-- `_reverse_step`: one reverse transition, always replying `S05`. -/
def reverse_step_command (S : ServerState) : ServerState × String :=
  let S1 := (reverse_step_inner S).1
  if S1.cpu_state.pc ∈ S1.breakpoints then (S1, "S05") else (S1, "S05")

/-- `_reverse_cont`: reverse-step until a breakpoint hit or index 0. -/
def reverse_cont_loop (S : ServerState) : ServerState × String :=
  match h : reverse_step_inner S with
  | (S1, true) =>
    if S1.cpu_state.pc ∈ S1.breakpoints then (S1, "S05")
    else reverse_cont_loop S1
  | (S1, false) => (stopServer S1, "W00")
termination_by S.trace_idx
decreasing_by
  obtain ⟨h1, -, h3, -⟩ := reverse_step_inner_true _ _ h
  omega

/-! ### Command dispatcher (handle_command) -/

/-- The `g` reply: each register as 16 zero-padded lowercase hex digits,
byte-swapped, concatenated in register order. -/
def gReply (s : CpuState) : String :=
  String.mk ((s.registers.map (fun reg => swapPairs (formatHexPad 16 reg))).flatten)

/-- The `G` loop: for each register index take the next 16 characters of the
payload, byte-swap, parse, store.  `none` models the uncaught exceptions the
source raises when a slice is odd-length (assert) or unparseable. -/
def writeRegsLoop (regs : List Nat) (cs : List Char) : Nat → Nat → Option (List Nat)
  | _, 0 => some regs
  | i, fuel + 1 =>
    let slice := (cs.drop (i * 16)).take 16
    if slice.length % 2 ≠ 0 then none
    else
      match hexParse (swapPairs slice) with
      | some v => writeRegsLoop (regs.set i v) cs (i + 1) fuel
      | none => none

def handleG (S : ServerState) (command : String) : Option (ServerState × String) :=
  match writeRegsLoop S.cpu_state.registers (command.data.drop 1) 0
      S.cpu_state.NUM_REGISTERS with
  | some regs =>
    some ({ S with cpu_state := { S.cpu_state with registers := regs } }, "OK")
  | none => none

/-- The register value served by `p<n>`: out-of-range register numbers read
as 0 (with a warning in the source). -/
def readRegValue (S : ServerState) (reg_num : Nat) : Nat :=
  if reg_num < S.cpu_state.NUM_REGISTERS then S.cpu_state.registers.getD reg_num 0
  else 0

/-- The `p<n>` branch; a payload not matching the regex falls through to
the unknown-command reply. -/
def handleReadReg (S : ServerState) (rest : List Char) : Option (ServerState × String) :=
  if (rest.takeWhile isHexChar).isEmpty then some (S, "")
  else
    some (S, String.mk (swapPairs (formatHexPad 16
      (readRegValue S (hexVal (rest.takeWhile isHexChar))))))

/-- The `P<n>=<hex>` branch.  The value is byte-swapped and parsed before
the range test; an odd-length value fails the `swap_endianess` assert, so
that case is `none`.  An out-of-range register number drops the write but
still replies OK. -/
def handleWriteReg (S : ServerState) (rest : List Char) : Option (ServerState × String) :=
  if (rest.takeWhile isHexChar).isEmpty then some (S, "")
  else
    match rest.drop (rest.takeWhile isHexChar).length with
    | '=' :: rest2 =>
      if (rest2.takeWhile isHexChar).isEmpty then some (S, "")
      else if (rest2.takeWhile isHexChar).length % 2 ≠ 0 then none
      else if hexVal (rest.takeWhile isHexChar) < S.cpu_state.NUM_REGISTERS then
        some ({ S with cpu_state :=
          { S.cpu_state with
            registers := (S.cpu_state.registers.set (hexVal (rest.takeWhile isHexChar))
              (hexVal (swapPairs (rest2.takeWhile isHexChar)))) } }, "OK")
      else some (S, "OK")
    | _ => some (S, "")

/-- The `m<addr>,<len>` branch: a pure read. -/
def handleReadMem (S : ServerState) (rest : List Char) : Option (ServerState × String) :=
  if (rest.takeWhile isHexChar).isEmpty then some (S, "")
  else
    match rest.drop (rest.takeWhile isHexChar).length with
    | ',' :: rest2 =>
      if (rest2.takeWhile isHexChar).isEmpty then some (S, "")
      else
        some (S, S.cpu_state.get_mem (String.mk (rest.takeWhile isHexChar))
          (hexVal (rest2.takeWhile isHexChar)))
    | _ => some (S, "")

/-- The `M<addr>,<len>:<hex>` branch; `none` models the two `set_mem`
asserts (declared length must equal half the data length, which must be
even). -/
def handleWriteMem (S : ServerState) (rest : List Char) : Option (ServerState × String) :=
  if (rest.takeWhile isHexChar).isEmpty then some (S, "")
  else
    match rest.drop (rest.takeWhile isHexChar).length with
    | ',' :: rest2 =>
      if (rest2.takeWhile isHexChar).isEmpty then some (S, "")
      else
        match rest2.drop (rest2.takeWhile isHexChar).length with
        | ':' :: rest3 =>
          if (rest3.takeWhile isHexChar).isEmpty then some (S, "")
          else if hexVal (rest2.takeWhile isHexChar) ≠
              (rest3.takeWhile isHexChar).length / 2 then none
          else if (rest3.takeWhile isHexChar).length % 2 ≠ 0 then none
          else
            some ({ S with cpu_state :=
              (S.cpu_state.set_mem (String.mk (rest.takeWhile isHexChar))
                (String.mk (rest3.takeWhile isHexChar))) }, "OK")
        | _ => some (S, "")
    | _ => some (S, "")

/-- The `H<op><tid>` branch; `none` models the `IndexError` on a bare `H`
and the `ValueError` on an unparseable thread id. -/
def handleH (S : ServerState) (command : String) : Option (ServerState × String) :=
  match command.data.drop 1 with
  | [] => none
  | op :: restTid =>
    if op = 'c' then
      match decIntParse restTid with
      | some tid => some ({ S with cont_thread := tid }, "OK")
      | none => none
    else if op = 'g' then
      match decIntParse restTid with
      | some tid => some ({ S with state_query_thread := tid }, "OK")
      | none => none
    else some (S, "")

/-- Extract the breakpoint address of a `Z<t>,<addr>,<kind>` payload (the
part after the leading letter); `none` means the regex did not match and
the command falls through to the unknown-command reply. -/
def parseZ (rest : List Char) : Option Nat :=
  match rest with
  | t :: ',' :: rest2 =>
    if isDecChar t then
      let hex := rest2.takeWhile isHexChar
      if hex.isEmpty then none
      else
        match rest2.drop hex.length with
        | ',' :: d :: _ => if isDecChar d then some (hexVal hex) else none
        | _ => none
    else none
  | _ => none

def bpAdd (a : Nat) (l : List Nat) : List Nat :=
  if a ∈ l then l else a :: l

def bpDiscard (a : Nat) (l : List Nat) : List Nat :=
  l.filter (fun x => x != a)

/-- Python `str.split(sep)` on a single character (no merging of empties). -/
def splitOnChar (sep : Char) : List Char → List (List Char)
  | [] => [[]]
  | c :: rest =>
    let r := splitOnChar sep rest
    if c = sep then [] :: r
    else
      match r with
      | h :: t => (c :: h) :: t
      | [] => [[c]]

/-- One iteration of the `_handle_vcont` action loop: empty actions are
skipped, `s`/`c` actions run and replace the response, anything else is
ignored. -/
def vcontAction (acc : ServerState × String) (action : List Char) : ServerState × String :=
  if action.isEmpty then acc
  else if (splitOnChar ':' action).headD [] = ['s'] then step_command acc.1
  else if (splitOnChar ':' action).headD [] = ['c'] then cont_loop acc.1
  else acc

/-- `_handle_vcont`: run the actions left to right, keeping the last
`s`/`c` reply (initially OK). -/
def handle_vcont (S : ServerState) (command : String) : ServerState × String :=
  if command = "vCont?" then (S, "vCont;c;s")
  else (splitOnChar ';' (command.data.drop 6)).foldl vcontAction (S, "OK")

def qSupportedReply : String :=
  "qXfer:features:read-;swbreak-;hwbreak+;vContSupported+;multiprocess-;QStartNoAckMode-;ReverseContinue+;ReverseStep+"

/-- `handle_command`: the full RSP dispatch chain, in source order.  The
result is `none` exactly when the source would raise out of the handler
(caught in `handle_client`, which then closes the connection). -/
def handle_command (S : ServerState) (command : String) : Option (ServerState × String) :=
  if ("qSupported".data <+: command.data) then some (S, qSupportedReply)
  else if command = "?" then some (S, "S05")
  else if command = "g" then some (S, gReply S.cpu_state)
  else if ("G".data <+: command.data) then handleG S command
  else if ("p".data <+: command.data) then handleReadReg S (command.data.drop 1)
  else if ("P".data <+: command.data) then handleWriteReg S (command.data.drop 1)
  else if ("m".data <+: command.data) then handleReadMem S (command.data.drop 1)
  else if ("M".data <+: command.data) then handleWriteMem S (command.data.drop 1)
  else if ("c".data <+: command.data) then some (cont_loop S)
  else if ("s".data <+: command.data) then some (step_command S)
  else if ("bc".data <+: command.data) then some (reverse_cont_loop S)
  else if ("bs".data <+: command.data) then some (reverse_step_command S)
  else if ("D".data <+: command.data) then some (stopServer S, "OK")
  else if ("H".data <+: command.data) then handleH S command
  else if command = "qC" then some (S, toString S.cont_thread)
  else if ("Z".data <+: command.data) then
    match parseZ (command.data.drop 1) with
    | some addr => some ({ S with breakpoints := bpAdd addr S.breakpoints }, "OK")
    | none => some (S, "")
  else if ("z".data <+: command.data) then
    match parseZ (command.data.drop 1) with
    | some addr => some ({ S with breakpoints := bpDiscard addr S.breakpoints }, "OK")
    | none => some (S, "")
  else if command = "qSymbol::" then some (S, "OK")
  else if command = "vMustReplyEmpty" then some (S, "")
  else if command = "qAttached" then some (S, "1")
  else if ("vCont".data <+: command.data) then some (handle_vcont S command)
  else some (S, "")

/-! ### RSP framer (_recv_packet / _send_packet) -/

/-- compute check sum modulo 256 of a byte string as expected by RSP -/
def get_bytes_checksum (b : List Nat) : Nat :=
  b.sum % 256

/-- `_send_packet` at byte level: the bytes of `$<payload>#<cc>` with `cc`
two lowercase hex digits of the payload checksum. -/
def formatPacket (payload : List Nat) : List Nat :=
  36 :: payload ++ 35 :: (formatHexPad 2 (get_bytes_checksum payload)).map Char.toNat

def byteIsHexDigit (b : Nat) : Bool :=
  (48 ≤ b && b ≤ 57) || (97 ≤ b && b ≤ 102) || (65 ≤ b && b ≤ 70)

def byteHexVal (b : Nat) : Nat :=
  if b ≤ 57 then b - 48 else if 65 ≤ b && b ≤ 70 then b - 55 else b - 87

/-- `int(two_checksum_bytes, 16)`: `none` models the `ValueError`. -/
def hexPairVal (b1 b2 : Nat) : Option Nat :=
  if byteIsHexDigit b1 && byteIsHexDigit b2 then
    some (16 * byteHexVal b1 + byteHexVal b2)
  else none

/-- The `_recv_packet` loop: accumulate payload bytes, reset on `$`, and on
`#` read two checksum bytes and compare.  `none` models both a socket that
closes before a full packet arrives and a `ValueError` from non-hex
checksum bytes. -/
def recvLoop : List Nat → List Nat → Option (List Nat × Bool)
  | [], _ => none
  | b :: rest, data =>
    if b = 36 then recvLoop rest []
    else if b = 35 then
      match rest with
      | c1 :: c2 :: _ =>
        match hexPairVal c1 c2 with
        | some v => some (data, v == get_bytes_checksum data)
        | none => none
      | _ => none
    else recvLoop rest (data ++ [b])

def recvPacket (stream : List Nat) : Option (List Nat × Bool) :=
  recvLoop stream []

/-! ### Basic facts about the codec -/

theorem natToHexF_fuel (n : Nat) :
    ∀ f1 f2, n < f1 → n < f2 → natToHexF f1 n = natToHexF f2 n := by
  induction n using Nat.strong_induction_on with
  | _ n ih =>
    intro f1 f2 h1 h2
    cases f1 with
    | zero => omega
    | succ g1 =>
      cases f2 with
      | zero => omega
      | succ g2 =>
        simp only [natToHexF]
        by_cases h : n < 16
        · simp [h]
        · have hd : n / 16 < n := Nat.div_lt_self (by omega) (by norm_num)
          simp only [h, if_false]
          rw [ih (n / 16) hd g1 g2 (by omega) (by omega)]

theorem natToHex_lt16 (n : Nat) (h : n < 16) : natToHex n = [hexDigitChar n] := by
  simp [natToHex, natToHexF, h]

theorem natToHex_ge16 (n : Nat) (h : ¬ n < 16) :
    natToHex n = natToHex (n / 16) ++ [hexDigitChar (n % 16)] := by
  have hd : n / 16 < n := Nat.div_lt_self (by omega) (by norm_num)
  have e1 : natToHex n = natToHexF n (n / 16) ++ [hexDigitChar (n % 16)] := by
    simp only [natToHex, natToHexF, h, if_false]
  rw [e1, natToHexF_fuel (n / 16) n (n / 16 + 1) (by omega) (by omega)]
  rfl

theorem natToHex_length_le (k : Nat) : ∀ n, n < 16 ^ k → (natToHex n).length ≤ max 1 k := by
  induction k with
  | zero =>
    intro n hn
    interval_cases n
    rw [natToHex_lt16 0 (by norm_num)]
    simp
  | succ k ih =>
    intro n hn
    by_cases h : n < 16
    · rw [natToHex_lt16 n h]
      simp
    · rcases Nat.eq_zero_or_pos k with hk | hk
      · subst hk
        rw [pow_one] at hn
        omega
      · rw [natToHex_ge16 n h]
        have hdiv : n / 16 < 16 ^ k := by
          rw [Nat.div_lt_iff_lt_mul (by norm_num)]
          calc n < 16 ^ (k + 1) := hn
          _ = 16 ^ k * 16 := by ring
        have hih := ih (n / 16) hdiv
        have hmax : max 1 k = k := Nat.max_eq_right hk
        rw [hmax] at hih
        rw [Nat.max_eq_right (by omega : 1 ≤ k + 1)]
        simp only [List.length_append, List.length_singleton]
        omega

theorem natToHex_length_pos (n : Nat) : 0 < (natToHex n).length := by
  by_cases h : n < 16
  · simp [natToHex_lt16 n h]
  · rw [natToHex_ge16 n h]
    simp

theorem formatHexPad_length (w n : Nat) (hw : 0 < w) (h : n < 16 ^ w) :
    (formatHexPad w n).length = w := by
  unfold formatHexPad
  have h1 := natToHex_length_le w n h
  have h2 := natToHex_length_pos n
  simp only [List.length_append, List.length_replicate]
  omega

/-! ### Claim C6: memory sentinel -/

theorem memRead_unset (m : Mem) (a : Nat) (h : memLookup m a = none) :
    memRead m a = UNSET_MEM_VALUE := by
  simp [memRead, h]

theorem getMemChars_unset (m : Mem) (addr : Nat) :
    ∀ n, (∀ i, i < n → memLookup m (addr + i) = none) →
      getMemChars m addr n = (List.replicate n (['c', 'a'] : List Char)).flatten := by
  intro n
  induction n with
  | zero => intro _; simp [getMemChars]
  | succ n ih =>
    intro h
    have hca : formatHexPad 2 (memRead m (addr + n)) = ['c', 'a'] := by
      rw [memRead_unset m _ (h n (Nat.lt_succ_self n))]
      decide
    unfold getMemChars at ih ⊢
    rw [List.range_succ, List.map_append, List.flatMap_append,
      ih (fun i hi => h i (Nat.lt_succ_of_lt hi))]
    rw [List.replicate_succ']
    simp [hca]

/-- C6 (confirmed).  Reading a range of which no address was ever written
returns exactly `n` copies of the sentinel hex text `ca`, and `get_mem` is
total (it cannot fail; the source additionally logs a diagnostic, which the
model drops). -/
theorem c6_memory_sentinel (s : CpuState) (hex_addr : String) (n : Nat)
    (h : ∀ i, i < n → memLookup s.memory (hexstr_to_int hex_addr + i) = none) :
    s.get_mem hex_addr n = String.mk ((List.replicate n (['c', 'a'] : List Char)).flatten) := by
  unfold CpuState.get_mem
  rw [getMemChars_unset s.memory (hexstr_to_int hex_addr) n h]

theorem c6_memory_sentinel_witness :
    (⟨1, 0, [(5, 7)], [0], true⟩ : CpuState).get_mem "100" 3 = "cacaca" := by
  have h := c6_memory_sentinel ⟨1, 0, [(5, 7)], [0], true⟩ "100" 3 (by decide)
  rw [h]
  decide

/-! ### Claim C7: framer checksum law -/

def byteIsLowerHex (b : Nat) : Bool :=
  (48 ≤ b && b ≤ 57) || (97 ≤ b && b ≤ 102)

/-- Decidable per-byte check backing the checksum round-trip: for a value
below 256 the two formatted digits are lowercase hex and parse back. -/
def pairChk (v : Nat) : Bool :=
  match formatHexPad 2 v with
  | [d1, d2] =>
    byteIsLowerHex d1.toNat && byteIsLowerHex d2.toNat &&
      (hexPairVal d1.toNat d2.toNat == some v)
  | _ => false

set_option maxRecDepth 4000 in
theorem pairChk_all : ∀ v, v < 256 → pairChk v = true := by decide

theorem recvLoop_append (payload : List Nat) :
    ∀ data rest, (∀ b ∈ payload, b ≠ 35 ∧ b ≠ 36) →
      recvLoop (payload ++ rest) data = recvLoop rest (data ++ payload) := by
  induction payload with
  | nil => simp
  | cons b bs ih =>
    intro data rest h
    have hb := h b (List.mem_cons_self b bs)
    simp only [List.cons_append, recvLoop, if_neg hb.2, if_neg hb.1, List.append_eq]
    rw [ih (data ++ [b]) rest (fun x hx => h x (List.mem_cons_of_mem b hx))]
    simp

/-- C7 (amended: payloads free of the framing bytes `#` and `$`).  The
formatted packet is `$` + payload + `#` + two lowercase hex digits of the
payload sum mod 256, and the receive path parses it back to the same
payload with the checksum reported valid. -/
theorem c7_framer_roundtrip (payload : List Nat)
    (h : ∀ b ∈ payload, b ≠ 35 ∧ b ≠ 36) :
    ∃ c1 c2, formatPacket payload = 36 :: payload ++ [35, c1, c2] ∧
      byteIsLowerHex c1 = true ∧ byteIsLowerHex c2 = true ∧
      hexPairVal c1 c2 = some (get_bytes_checksum payload) ∧
      recvPacket (formatPacket payload) = some (payload, true) := by
  have hv : get_bytes_checksum payload < 256 := Nat.mod_lt _ (by norm_num)
  have hch := pairChk_all (get_bytes_checksum payload) hv
  unfold pairChk at hch
  rcases hl : formatHexPad 2 (get_bytes_checksum payload) with - | ⟨d1, - | ⟨d2, - | ⟨d3, tl⟩⟩⟩ <;>
    rw [hl] at hch <;> try simp at hch
  obtain ⟨⟨hh1, hh2⟩, hh3⟩ := hch
  refine ⟨d1.toNat, d2.toNat, ?_, hh1, hh2, hh3, ?_⟩
  · simp [formatPacket, hl]
  · have hfmt : formatPacket payload = 36 :: payload ++ [35, d1.toNat, d2.toNat] := by
      simp [formatPacket, hl]
    rw [hfmt]
    unfold recvPacket
    have e0 : recvLoop (36 :: payload ++ [35, d1.toNat, d2.toNat]) [] =
        recvLoop (payload ++ [35, d1.toNat, d2.toNat]) [] := by
      simp [recvLoop]
    rw [e0, recvLoop_append payload [] ([35, d1.toNat, d2.toNat]) h]
    simp [recvLoop, hh3]

theorem c7_framer_roundtrip_witness :
    (∀ b ∈ [97, 98, 99], b ≠ 35 ∧ b ≠ 36) ∧
      recvPacket (formatPacket [97, 98, 99]) = some ([97, 98, 99], true) := by
  have h : ∀ b ∈ [97, 98, 99], b ≠ 35 ∧ b ≠ 36 := by decide
  obtain ⟨c1, c2, -, -, -, -, hp⟩ := c7_framer_roundtrip [97, 98, 99] h
  exact ⟨h, hp⟩

/-- C7 counterexample: for the payload consisting of the single byte `#`,
parsing the formatted packet does not return the payload with a valid
checksum — the receiver takes the payload `#` as the end-of-packet marker
and then chokes on the checksum bytes (`int` raises in the source). -/
theorem c7_counterexample :
    recvPacket (formatPacket [35]) = none ∧
      recvPacket (formatPacket [35]) ≠ some ([35], true) := by
  decide

/-! ### Step and continue frame lemmas -/

/-- Cursor bounds predicate of claim C5. -/
def cursorOk (S : ServerState) : Prop :=
  S.trace_idx ≤ S.trace.length

theorem step_inner_stop (S : ServerState) (h : S.trace.length ≤ S.trace_idx) :
    step_inner S = (stopServer S, false) := by
  unfold step_inner
  rw [if_pos h]

theorem reverse_step_inner_stop (S : ServerState) (h : S.trace_idx = 0) :
    reverse_step_inner S = (stopServer S, false) := by
  unfold reverse_step_inner
  rw [if_pos h]

theorem step_inner_false (S S' : ServerState) (h : step_inner S = (S', false)) :
    S' = stopServer S ∧ S.trace.length ≤ S.trace_idx := by
  unfold step_inner at h
  split at h
  · rename_i hle
    exact ⟨(Prod.mk.injEq .. ▸ h).1.symm, hle⟩
  · simp at h

theorem reverse_step_inner_false (S S' : ServerState)
    (h : reverse_step_inner S = (S', false)) :
    S' = stopServer S ∧ S.trace_idx = 0 := by
  unfold reverse_step_inner at h
  split at h
  · rename_i hz
    exact ⟨(Prod.mk.injEq .. ▸ h).1.symm, hz⟩
  · simp at h

theorem step_inner_trace (S : ServerState) : (step_inner S).1.trace = S.trace := by
  unfold step_inner
  split <;> rfl

theorem step_inner_breakpoints (S : ServerState) :
    (step_inner S).1.breakpoints = S.breakpoints := by
  unfold step_inner
  split <;> rfl

theorem reverse_step_inner_trace (S : ServerState) :
    (reverse_step_inner S).1.trace = S.trace := by
  unfold reverse_step_inner
  split <;> rfl

theorem step_inner_cursor (S : ServerState) (h : cursorOk S) :
    cursorOk (step_inner S).1 := by
  unfold cursorOk step_inner at *
  split
  · exact h
  · rename_i hlt
    simp only []
    omega

theorem reverse_step_inner_cursor (S : ServerState) (h : cursorOk S) :
    cursorOk (reverse_step_inner S).1 := by
  unfold cursorOk reverse_step_inner at *
  split
  · exact h
  · simp only []
    omega

theorem step_command_fst (S : ServerState) :
    (step_command S).1 = (step_inner S).1 ∧ (step_command S).2 = "S05" := by
  simp [step_command]

theorem reverse_step_command_fst (S : ServerState) :
    (reverse_step_command S).1 = (reverse_step_inner S).1 ∧
      (reverse_step_command S).2 = "S05" := by
  simp [reverse_step_command]

theorem cont_loop_trace (S : ServerState) : (cont_loop S).1.trace = S.trace := by
  induction S using cont_loop.induct with
  | case1 x S1 hstep hmem =>
    rw [cont_loop.eq_def, hstep]
    simp only [if_pos hmem]
    have ht := step_inner_trace x
    rw [hstep] at ht
    exact ht
  | case2 x S1 hstep hmem ih =>
    rw [cont_loop.eq_def, hstep]
    simp only [if_neg hmem]
    rw [ih]
    have ht := step_inner_trace x
    rw [hstep] at ht
    exact ht
  | case3 x S1 hstep =>
    rw [cont_loop.eq_def, hstep]
    have ht := step_inner_trace x
    rw [hstep] at ht
    exact ht

theorem cont_loop_cursor (S : ServerState) :
    cursorOk S → cursorOk (cont_loop S).1 := by
  induction S using cont_loop.induct with
  | case1 x S1 hstep hmem =>
    intro h
    rw [cont_loop.eq_def, hstep]
    simp only [if_pos hmem]
    have hc := step_inner_cursor x h
    rw [hstep] at hc
    exact hc
  | case2 x S1 hstep hmem ih =>
    intro h
    rw [cont_loop.eq_def, hstep]
    simp only [if_neg hmem]
    have hc := step_inner_cursor x h
    rw [hstep] at hc
    exact ih hc
  | case3 x S1 hstep =>
    intro h
    rw [cont_loop.eq_def, hstep]
    obtain ⟨rfl, -⟩ := step_inner_false x S1 hstep
    exact h

theorem reverse_cont_loop_trace (S : ServerState) :
    (reverse_cont_loop S).1.trace = S.trace := by
  induction S using reverse_cont_loop.induct with
  | case1 x S1 hstep hmem =>
    rw [reverse_cont_loop.eq_def, hstep]
    simp only [if_pos hmem]
    have ht := reverse_step_inner_trace x
    rw [hstep] at ht
    exact ht
  | case2 x S1 hstep hmem ih =>
    rw [reverse_cont_loop.eq_def, hstep]
    simp only [if_neg hmem]
    rw [ih]
    have ht := reverse_step_inner_trace x
    rw [hstep] at ht
    exact ht
  | case3 x S1 hstep =>
    rw [reverse_cont_loop.eq_def, hstep]
    have ht := reverse_step_inner_trace x
    rw [hstep] at ht
    exact ht

theorem reverse_cont_loop_cursor (S : ServerState) :
    cursorOk S → cursorOk (reverse_cont_loop S).1 := by
  induction S using reverse_cont_loop.induct with
  | case1 x S1 hstep hmem =>
    intro h
    rw [reverse_cont_loop.eq_def, hstep]
    simp only [if_pos hmem]
    have hc := reverse_step_inner_cursor x h
    rw [hstep] at hc
    exact hc
  | case2 x S1 hstep hmem ih =>
    intro h
    rw [reverse_cont_loop.eq_def, hstep]
    simp only [if_neg hmem]
    have hc := reverse_step_inner_cursor x h
    rw [hstep] at hc
    exact ih hc
  | case3 x S1 hstep =>
    intro h
    rw [reverse_cont_loop.eq_def, hstep]
    obtain ⟨rfl, -⟩ := reverse_step_inner_false x S1 hstep
    exact h

/-! ### Claim C4: single-step semantics -/

/-- C4 (amended): handling `s` dispatches to `_step`; below end-of-trace it
performs exactly one cursor transition regardless of which breakpoints are
set; at end-of-trace it moves nothing (only clearing the running flag); and
the reply is always `S05`, never `W00`. -/
theorem c4_single_step (S : ServerState) :
    handle_command S "s" = some (step_command S) ∧
    (step_command S).2 = "S05" ∧
    (S.trace_idx < S.trace.length →
      (step_command S).1.trace_idx = S.trace_idx + 1) ∧
    (S.trace.length ≤ S.trace_idx → (step_command S).1 = stopServer S) := by
  refine ⟨rfl, (step_command_fst S).2, ?_, ?_⟩
  · intro h
    rw [(step_command_fst S).1]
    unfold step_inner
    rw [if_neg (Nat.not_le.mpr h)]
  · intro h
    rw [(step_command_fst S).1, step_inner_stop S h]

theorem c4_single_step_witness :
    (step_command (mkServer [default] ⟨1, 0, [], [0], true⟩)).1.trace_idx = 0 + 1 :=
  (c4_single_step (mkServer [default] ⟨1, 0, [], [0], true⟩)).2.2.1 (by decide)

/-- C4 counterexample: at end of trace (cursor 0 on an empty trace) the `s`
handler replies `S05`, not `W00`, and performs no cursor transition —
refuting both the `W00 at end-of-trace` clause and the `exactly one
transition` clause of the claim. -/
theorem c4_counterexample :
    (step_command (mkServer [] ⟨1, 0, [], [0], true⟩)).2 = "S05" ∧
    (step_command (mkServer [] ⟨1, 0, [], [0], true⟩)).2 ≠ "W00" ∧
    (step_command (mkServer [] ⟨1, 0, [], [0], true⟩)).1.trace_idx = 0 := by
  decide

/-! ### Frame lemmas for the dispatcher branches -/

theorem frame_of_eqs {S S' : ServerState} (ht : S'.trace = S.trace)
    (hi : S'.trace_idx = S.trace_idx) :
    S'.trace = S.trace ∧ (cursorOk S → cursorOk S') := by
  refine ⟨ht, fun hc => ?_⟩
  unfold cursorOk at *
  rw [ht, hi]
  exact hc

theorem handleG_frame (S : ServerState) (c : String) (S' : ServerState) (r : String)
    (h : handleG S c = some (S', r)) :
    S'.trace = S.trace ∧ S'.trace_idx = S.trace_idx := by
  unfold handleG at h
  split at h
  · simp only [Option.some.injEq, Prod.mk.injEq] at h
    obtain ⟨h1, -⟩ := h
    subst h1
    exact ⟨rfl, rfl⟩
  · simp at h

theorem handleReadReg_state (S : ServerState) (rest : List Char) (S' : ServerState)
    (r : String) (h : handleReadReg S rest = some (S', r)) : S' = S := by
  unfold handleReadReg at h
  split at h <;>
    · simp only [Option.some.injEq, Prod.mk.injEq] at h
      exact h.1.symm

theorem handleWriteReg_frame (S : ServerState) (rest : List Char) (S' : ServerState)
    (r : String) (h : handleWriteReg S rest = some (S', r)) :
    S'.trace = S.trace ∧ S'.trace_idx = S.trace_idx := by
  unfold handleWriteReg at h
  repeat' split at h
  all_goals
    first
    | exact Option.noConfusion h
    | (simp only [Option.some.injEq, Prod.mk.injEq] at h
       obtain ⟨h1, -⟩ := h
       subst h1
       exact ⟨rfl, rfl⟩)

theorem handleReadMem_state (S : ServerState) (rest : List Char) (S' : ServerState)
    (r : String) (h : handleReadMem S rest = some (S', r)) : S' = S := by
  unfold handleReadMem at h
  repeat' split at h
  all_goals
    first
    | exact Option.noConfusion h
    | (simp only [Option.some.injEq, Prod.mk.injEq] at h
       exact h.1.symm)

theorem handleWriteMem_frame (S : ServerState) (rest : List Char) (S' : ServerState)
    (r : String) (h : handleWriteMem S rest = some (S', r)) :
    S'.trace = S.trace ∧ S'.trace_idx = S.trace_idx := by
  unfold handleWriteMem at h
  repeat' split at h
  all_goals
    first
    | exact Option.noConfusion h
    | (simp only [Option.some.injEq, Prod.mk.injEq] at h
       obtain ⟨h1, -⟩ := h
       subst h1
       exact ⟨rfl, rfl⟩)

theorem handleH_frame (S : ServerState) (c : String) (S' : ServerState) (r : String)
    (h : handleH S c = some (S', r)) :
    S'.trace = S.trace ∧ S'.trace_idx = S.trace_idx := by
  unfold handleH at h
  repeat' split at h
  all_goals
    first
    | exact Option.noConfusion h
    | (simp only [Option.some.injEq, Prod.mk.injEq] at h
       obtain ⟨h1, -⟩ := h
       subst h1
       exact ⟨rfl, rfl⟩)

theorem vcontAction_frame (acc : ServerState × String) (a : List Char) :
    (vcontAction acc a).1.trace = acc.1.trace ∧
      (cursorOk acc.1 → cursorOk (vcontAction acc a).1) := by
  unfold vcontAction
  repeat' split
  · exact ⟨rfl, id⟩
  · constructor
    · rw [(step_command_fst acc.1).1, step_inner_trace]
    · intro hc
      rw [(step_command_fst acc.1).1]
      exact step_inner_cursor acc.1 hc
  · exact ⟨cont_loop_trace acc.1, cont_loop_cursor acc.1⟩
  · exact ⟨rfl, id⟩

theorem vcont_foldl_frame (actions : List (List Char)) :
    ∀ acc : ServerState × String,
      (actions.foldl vcontAction acc).1.trace = acc.1.trace ∧
        (cursorOk acc.1 → cursorOk (actions.foldl vcontAction acc).1) := by
  induction actions with
  | nil => exact fun acc => ⟨rfl, id⟩
  | cons a rest ih =>
    intro acc
    have h1 := vcontAction_frame acc a
    have h2 := ih (vcontAction acc a)
    exact ⟨h2.1.trans h1.1, fun hc => h2.2 (h1.2 hc)⟩

theorem handle_vcont_frame (S : ServerState) (cmd : String) :
    (handle_vcont S cmd).1.trace = S.trace ∧
      (cursorOk S → cursorOk (handle_vcont S cmd).1) := by
  unfold handle_vcont
  split
  · exact ⟨rfl, id⟩
  · exact vcont_foldl_frame _ (S, "OK")

theorem frame_pair {S S' X : ServerState} {y r : String}
    (h : some (X, y) = some (S', r)) (ht : X.trace = S.trace)
    (hi : X.trace_idx = S.trace_idx) :
    S'.trace = S.trace ∧ (cursorOk S → cursorOk S') := by
  injection h with hpair
  injection hpair with h1 h2
  subst h1
  exact frame_of_eqs ht hi

/-- Every command handler preserves the trace and the cursor-bounds
invariant. -/
theorem handle_command_frame (S : ServerState) (cmd : String) (S' : ServerState)
    (r : String) (h : handle_command S cmd = some (S', r)) :
    S'.trace = S.trace ∧ (cursorOk S → cursorOk S') := by
  unfold handle_command at h
  by_cases c1 : ("qSupported".data <+: cmd.data)
  · rw [if_pos c1] at h
    exact frame_pair h rfl rfl
  rw [if_neg c1] at h
  by_cases c2 : cmd = "?"
  · rw [if_pos c2] at h
    exact frame_pair h rfl rfl
  rw [if_neg c2] at h
  by_cases c3 : cmd = "g"
  · rw [if_pos c3] at h
    exact frame_pair h rfl rfl
  rw [if_neg c3] at h
  by_cases c4 : ("G".data <+: cmd.data)
  · rw [if_pos c4] at h
    exact frame_of_eqs (handleG_frame _ _ _ _ h).1 (handleG_frame _ _ _ _ h).2
  rw [if_neg c4] at h
  by_cases c5 : ("p".data <+: cmd.data)
  · rw [if_pos c5] at h
    obtain rfl := handleReadReg_state _ _ _ _ h
    exact ⟨rfl, id⟩
  rw [if_neg c5] at h
  by_cases c6 : ("P".data <+: cmd.data)
  · rw [if_pos c6] at h
    exact frame_of_eqs (handleWriteReg_frame _ _ _ _ h).1
      (handleWriteReg_frame _ _ _ _ h).2
  rw [if_neg c6] at h
  by_cases c7 : ("m".data <+: cmd.data)
  · rw [if_pos c7] at h
    obtain rfl := handleReadMem_state _ _ _ _ h
    exact ⟨rfl, id⟩
  rw [if_neg c7] at h
  by_cases c8 : ("M".data <+: cmd.data)
  · rw [if_pos c8] at h
    exact frame_of_eqs (handleWriteMem_frame _ _ _ _ h).1
      (handleWriteMem_frame _ _ _ _ h).2
  rw [if_neg c8] at h
  by_cases c9 : ("c".data <+: cmd.data)
  · rw [if_pos c9] at h
    have hp : cont_loop S = (S', r) := Option.some_inj.mp h
    have hS : S' = (cont_loop S).1 := by rw [hp]
    rw [hS]
    exact ⟨cont_loop_trace S, cont_loop_cursor S⟩
  rw [if_neg c9] at h
  by_cases c10 : ("s".data <+: cmd.data)
  · rw [if_pos c10] at h
    have hp : step_command S = (S', r) := Option.some_inj.mp h
    have hS : S' = (step_command S).1 := by rw [hp]
    rw [hS, (step_command_fst S).1]
    exact ⟨step_inner_trace S, step_inner_cursor S⟩
  rw [if_neg c10] at h
  by_cases c11 : ("bc".data <+: cmd.data)
  · rw [if_pos c11] at h
    have hp : reverse_cont_loop S = (S', r) := Option.some_inj.mp h
    have hS : S' = (reverse_cont_loop S).1 := by rw [hp]
    rw [hS]
    exact ⟨reverse_cont_loop_trace S, reverse_cont_loop_cursor S⟩
  rw [if_neg c11] at h
  by_cases c12 : ("bs".data <+: cmd.data)
  · rw [if_pos c12] at h
    have hp : reverse_step_command S = (S', r) := Option.some_inj.mp h
    have hS : S' = (reverse_step_command S).1 := by rw [hp]
    rw [hS, (reverse_step_command_fst S).1]
    exact ⟨reverse_step_inner_trace S, reverse_step_inner_cursor S⟩
  rw [if_neg c12] at h
  by_cases c13 : ("D".data <+: cmd.data)
  · rw [if_pos c13] at h
    exact frame_pair h rfl rfl
  rw [if_neg c13] at h
  by_cases c14 : ("H".data <+: cmd.data)
  · rw [if_pos c14] at h
    exact frame_of_eqs (handleH_frame _ _ _ _ h).1 (handleH_frame _ _ _ _ h).2
  rw [if_neg c14] at h
  by_cases c15 : cmd = "qC"
  · rw [if_pos c15] at h
    exact frame_pair h rfl rfl
  rw [if_neg c15] at h
  by_cases c16 : ("Z".data <+: cmd.data)
  · rw [if_pos c16] at h
    rcases hz : parseZ (cmd.data.drop 1) with - | addr <;> rw [hz] at h
    · exact frame_pair h rfl rfl
    · exact frame_pair h rfl rfl
  rw [if_neg c16] at h
  by_cases c17 : ("z".data <+: cmd.data)
  · rw [if_pos c17] at h
    rcases hz : parseZ (cmd.data.drop 1) with - | addr <;> rw [hz] at h
    · exact frame_pair h rfl rfl
    · exact frame_pair h rfl rfl
  rw [if_neg c17] at h
  by_cases c18 : cmd = "qSymbol::"
  · rw [if_pos c18] at h
    exact frame_pair h rfl rfl
  rw [if_neg c18] at h
  by_cases c19 : cmd = "vMustReplyEmpty"
  · rw [if_pos c19] at h
    exact frame_pair h rfl rfl
  rw [if_neg c19] at h
  by_cases c20 : cmd = "qAttached"
  · rw [if_pos c20] at h
    exact frame_pair h rfl rfl
  rw [if_neg c20] at h
  by_cases c21 : ("vCont".data <+: cmd.data)
  · rw [if_pos c21] at h
    have hp : handle_vcont S cmd = (S', r) := Option.some_inj.mp h
    have hS : S' = (handle_vcont S cmd).1 := by rw [hp]
    rw [hS]
    exact handle_vcont_frame S cmd
  rw [if_neg c21] at h
  exact frame_pair h rfl rfl

/-! ### Claim C5: cursor bounds -/

/-- C5 (confirmed).  The initial cursor is in bounds, every command handler
that completes preserves `0 ≤ trace_idx ≤ len(trace)`, and a forward step
at the upper bound (resp. a reverse step at 0) leaves the cursor and the
CPU state unchanged apart from clearing the running flag, returning false. -/
theorem c5_cursor_bounds :
    (∀ (tr : List TraceEntry) (cpu : CpuState), cursorOk (mkServer tr cpu)) ∧
    (∀ (S : ServerState) (cmd : String) (S' : ServerState) (r : String),
      handle_command S cmd = some (S', r) → cursorOk S → cursorOk S') ∧
    (∀ S : ServerState, S.trace.length ≤ S.trace_idx →
      step_inner S = (stopServer S, false)) ∧
    (∀ S : ServerState, S.trace_idx = 0 →
      reverse_step_inner S = (stopServer S, false)) := by
  refine ⟨?_, ?_, step_inner_stop, reverse_step_inner_stop⟩
  · intro tr cpu
    exact Nat.zero_le _
  · intro S cmd S' r h hc
    exact (handle_command_frame S cmd S' r h).2 hc

theorem c5_cursor_bounds_witness :
    step_inner (mkServer [] ⟨1, 0, [], [0], true⟩) =
      (stopServer (mkServer [] ⟨1, 0, [], [0], true⟩), false) ∧
    reverse_step_inner (mkServer [] ⟨1, 0, [], [0], true⟩) =
      (stopServer (mkServer [] ⟨1, 0, [], [0], true⟩), false) :=
  ⟨c5_cursor_bounds.2.2.1 _ (by decide), c5_cursor_bounds.2.2.2 _ (by decide)⟩

/-! ### Claim C2: breakpoint arrival semantics of run_forward -/

/-- Iterate `_step_inner`, keeping only the state. -/
def stepIter (S : ServerState) : Nat → ServerState
  | 0 => S
  | n + 1 => stepIter (step_inner S).1 n

/-- The PC observed after `n` forward steps (the post-step PC of step `n`). -/
def pcAfter (S : ServerState) (n : Nat) : Nat :=
  (stepIter S n).cpu_state.pc

theorem stepIter_shift (S : ServerState) (n : Nat) :
    stepIter S (n + 1) = stepIter (step_inner S).1 n := rfl

theorem stopServer_idem (S : ServerState) :
    stopServer (stopServer S) = stopServer S := rfl

theorem stepIter_breakpoints (S : ServerState) :
    ∀ n, (stepIter S n).breakpoints = S.breakpoints := by
  intro n
  induction n generalizing S with
  | zero => rfl
  | succ n ih =>
    rw [stepIter_shift, ih, step_inner_breakpoints]

theorem stepIter_trace (S : ServerState) :
    ∀ n, (stepIter S n).trace = S.trace := by
  intro n
  induction n generalizing S with
  | zero => rfl
  | succ n ih =>
    rw [stepIter_shift, ih, step_inner_trace]

theorem cont_loop_eq_true (x S1 : ServerState) (hstep : step_inner x = (S1, true)) :
    cont_loop x =
      if S1.cpu_state.pc ∈ S1.breakpoints then (S1, "S05") else cont_loop S1 := by
  rw [cont_loop.eq_def, hstep]

theorem cont_loop_eq_false (x S1 : ServerState) (hstep : step_inner x = (S1, false)) :
    cont_loop x = (stopServer S1, "W00") := by
  rw [cont_loop.eq_def, hstep]

/-- C2 (confirmed).  From a cursor strictly below end-of-trace, `c`:
(i) always advances the cursor by at least one, even if a breakpoint is set
on the current PC (no hypothesis about the current PC is needed);
(ii) if some step within range lands on a breakpoint, it stops with `S05`
exactly at the first such step, the state being that of `n` raw steps;
(iii) otherwise it runs to end-of-trace, replying `W00`. -/
theorem c2_run_forward (S : ServerState) :
    S.trace_idx < S.trace.length →
    (cont_loop S).1.trace_idx ≥ S.trace_idx + 1 ∧
    ((∃ n, 1 ≤ n ∧ n ≤ S.trace.length - S.trace_idx ∧
        pcAfter S n ∈ S.breakpoints) →
      ∃ n, 1 ≤ n ∧ n ≤ S.trace.length - S.trace_idx ∧
        pcAfter S n ∈ S.breakpoints ∧
        (∀ j, 1 ≤ j → j < n → pcAfter S j ∉ S.breakpoints) ∧
        cont_loop S = (stepIter S n, "S05") ∧
        (stepIter S n).trace_idx = S.trace_idx + n) ∧
    ((∀ n, 1 ≤ n → n ≤ S.trace.length - S.trace_idx →
        pcAfter S n ∉ S.breakpoints) →
      (cont_loop S).2 = "W00" ∧ (cont_loop S).1.trace_idx = S.trace.length) := by
  induction S using cont_loop.induct with
  | case1 x S1 hstep hmem =>
    intro hlt
    obtain ⟨-, htr, hidx, hbp⟩ := step_inner_true x S1 hstep
    have hlen : S1.trace.length = x.trace.length := by rw [htr]
    have hcl : cont_loop x = (S1, "S05") := by
      rw [cont_loop_eq_true x S1 hstep, if_pos hmem]
    have hS1 : stepIter x 1 = S1 := by
      rw [stepIter_shift, hstep]
      rfl
    have hpc1 : pcAfter x 1 ∈ x.breakpoints := by
      unfold pcAfter
      rw [hS1, ← hbp]
      exact hmem
    refine ⟨?_, ?_, ?_⟩
    · rw [hcl]
      show S1.trace_idx ≥ x.trace_idx + 1
      omega
    · intro hex
      refine ⟨1, le_refl 1, by omega, hpc1, ?_, ?_, ?_⟩
      · intro j hj1 hj2
        omega
      · rw [hcl, hS1]
      · rw [hS1]
        omega
    · intro hno
      exact absurd hpc1 (hno 1 (le_refl 1) (by omega))
  | case2 x S1 hstep hmem ih =>
    intro hlt
    obtain ⟨-, htr, hidx, hbp⟩ := step_inner_true x S1 hstep
    have hlen : S1.trace.length = x.trace.length := by rw [htr]
    have hcl : cont_loop x = cont_loop S1 := by
      rw [cont_loop_eq_true x S1 hstep, if_neg hmem]
    have hS1 : stepIter x 1 = S1 := by
      rw [stepIter_shift, hstep]
      rfl
    have hshift : ∀ m, pcAfter S1 m = pcAfter x (m + 1) := by
      intro m
      unfold pcAfter
      rw [stepIter_shift, hstep]
    have hpc1 : pcAfter x 1 ∉ x.breakpoints := by
      unfold pcAfter
      rw [hS1, ← hbp]
      exact hmem
    by_cases hend : S1.trace_idx < S1.trace.length
    · obtain ⟨ih1, ih2, ih3⟩ := ih hend
      refine ⟨?_, ?_, ?_⟩
      · rw [hcl]
        omega
      · rintro ⟨n, hn1, hn2, hnbp⟩
        have hn2' : n - 1 ≤ S1.trace.length - S1.trace_idx := by
          rw [htr, hidx]
          omega
        have hnth : 1 ≤ n - 1 := by
          rcases Nat.eq_or_lt_of_le hn1 with h1 | h1
          · exact absurd (h1 ▸ hnbp) hpc1
          · omega
        have hnbp' : pcAfter S1 (n - 1) ∈ S1.breakpoints := by
          rw [hshift, hbp]
          have he : n - 1 + 1 = n := by omega
          rw [he]
          exact hnbp
        obtain ⟨n', hm1, hm2, hm3, hm4, hm5, hm6⟩ := ih2 ⟨n - 1, hnth, hn2', hnbp'⟩
        refine ⟨n' + 1, by omega, by omega, ?_, ?_, ?_, ?_⟩
        · rw [← hbp]
          rw [hshift] at hm3
          exact hm3
        · intro j hj1 hj2
          rcases Nat.eq_or_lt_of_le hj1 with h1 | h1
          · exact h1 ▸ hpc1
          · have hmin := hm4 (j - 1) (by omega) (by omega)
            rw [hshift, hbp] at hmin
            have hj : j - 1 + 1 = j := by omega
            rw [hj] at hmin
            exact hmin
        · rw [hcl, hm5, stepIter_shift, hstep]
        · rw [stepIter_shift, hstep]
          show (stepIter S1 n').trace_idx = x.trace_idx + (n' + 1)
          omega
      · intro hno
        have hno' : ∀ m, 1 ≤ m → m ≤ S1.trace.length - S1.trace_idx →
            pcAfter S1 m ∉ S1.breakpoints := by
          intro m hm1 hm2
          rw [hshift, hbp]
          exact hno (m + 1) (by omega) (by omega)
        obtain ⟨hw1, hw2⟩ := ih3 hno'
        constructor
        · rw [hcl]
          exact hw1
        · rw [hcl, hw2, htr]
    · have hTeq : S1.trace_idx = S1.trace.length := by omega
      have hstop : step_inner S1 = (stopServer S1, false) :=
        step_inner_stop S1 (le_of_eq hTeq.symm)
      have hcl2 : cont_loop S1 = (stopServer (stopServer S1), "W00") :=
        cont_loop_eq_false S1 (stopServer S1) hstop
      rw [stopServer_idem] at hcl2
      refine ⟨?_, ?_, ?_⟩
      · rw [hcl, hcl2]
        show S1.trace_idx ≥ x.trace_idx + 1
        omega
      · rintro ⟨n, hn1, hn2, hnbp⟩
        have hone : n = 1 := by omega
        exact absurd (hone ▸ hnbp) hpc1
      · intro hno
        constructor
        · rw [hcl, hcl2]
        · rw [hcl, hcl2]
          show S1.trace_idx = x.trace.length
          rw [← htr]
          omega
  | case3 x S1 hstep =>
    intro hlt
    obtain ⟨-, hge⟩ := step_inner_false x S1 hstep
    omega

theorem c2_run_forward_witness :
    (cont_loop (mkServer [⟨7, none, none⟩] ⟨1, 0, [], [0], true⟩)).1.trace_idx ≥ 0 + 1 :=
  (c2_run_forward (mkServer [⟨7, none, none⟩] ⟨1, 0, [], [0], true⟩) (by decide)).1

/-! ### Claim C8: register read encoding -/

def isLowerHexDigit (c : Char) : Bool :=
  (('0' ≤ c && c ≤ '9') || ('a' ≤ c && c ≤ 'f'))

theorem hexDigitChar_lower : ∀ n, n < 16 → isLowerHexDigit (hexDigitChar n) = true := by
  decide

theorem natToHex_lower (n : Nat) :
    ∀ c ∈ natToHex n, isLowerHexDigit c = true := by
  induction n using Nat.strong_induction_on with
  | _ n ih =>
    by_cases h : n < 16
    · rw [natToHex_lt16 n h]
      intro c hc
      rw [List.mem_singleton] at hc
      subst hc
      exact hexDigitChar_lower n h
    · rw [natToHex_ge16 n h]
      intro c hc
      rcases List.mem_append.mp hc with h1 | h1
      · exact ih (n / 16) (Nat.div_lt_self (by omega) (by norm_num)) c h1
      · rw [List.mem_singleton] at h1
        subst h1
        exact hexDigitChar_lower (n % 16) (Nat.mod_lt n (by norm_num))

theorem formatHexPad_lower (w n : Nat) :
    ∀ c ∈ formatHexPad w n, isLowerHexDigit c = true := by
  intro c hc
  rcases List.mem_append.mp hc with h1 | h1
  · rw [List.eq_of_mem_replicate h1]
    decide
  · exact natToHex_lower n c h1

theorem swapPairs_length : ∀ l : List Char, (swapPairs l).length = l.length := by
  intro l
  induction l using swapPairs.induct with
  | case1 a b rest ih =>
    show (swapPairs rest ++ [a, b]).length = (a :: b :: rest).length
    simp [ih]
  | case2 other h =>
    rcases other with - | ⟨a, - | ⟨b, rest⟩⟩
    · rfl
    · rfl
    · exact absurd rfl (h a b rest)

theorem swapPairs_mem : ∀ (l : List Char) (c : Char), c ∈ swapPairs l → c ∈ l := by
  intro l
  induction l using swapPairs.induct with
  | case1 a b rest ih =>
    intro c hc
    show c ∈ a :: b :: rest
    rcases List.mem_append.mp hc with h1 | h1
    · simp [ih c h1]
    · simp at h1
      rcases h1 with h1 | h1 <;> simp [h1]
  | case2 other h =>
    intro c hc
    rcases other with - | ⟨a, - | ⟨b, rest⟩⟩
    · exact hc
    · exact hc
    · exact absurd rfl (h a b rest)

theorem gReply_spec (s : CpuState) :
    ((∀ r ∈ s.registers, r < 2 ^ 64) →
      (gReply s).data.length = s.registers.length * 16) ∧
    ∀ c ∈ (gReply s).data, isLowerHexDigit c = true := by
  unfold gReply
  induction s.registers with
  | nil => exact ⟨fun _ => rfl, by simp⟩
  | cons r0 rest ih =>
    constructor
    · intro hb
      have h0 : (swapPairs (formatHexPad 16 r0)).length = 16 := by
        rw [swapPairs_length, formatHexPad_length 16 r0 (by norm_num)]
        have : (2 : Nat) ^ 64 = 16 ^ 16 := by norm_num
        exact this ▸ hb r0 (List.mem_cons_self r0 rest)
      have h1 := ih.1 (fun r hr => hb r (List.mem_cons_of_mem r0 hr))
      simp only [List.map_cons, List.flatten_cons, String.mk] at h1 ⊢
      simp only [List.length_append, h0, List.length_cons]
      rw [h1]
      ring
    · intro c hc
      simp only [List.map_cons, List.flatten_cons, String.mk] at hc
      rcases List.mem_append.mp hc with h1 | h1
      · exact formatHexPad_lower 16 r0 c (swapPairs_mem _ c h1)
      · exact ih.2 c h1

/-- C8 (amended: restricted to states whose register values all fit in 64
bits, which `P` writes with over-long operands can violate).  The reply to
`g` is exactly `NUM_REGISTERS * 16` lowercase hex digits, each register as
16 byte-swapped digits. -/
theorem c8_register_read (S : ServerState)
    (hlen : S.cpu_state.registers.length = S.cpu_state.NUM_REGISTERS)
    (hbound : ∀ r ∈ S.cpu_state.registers, r < 2 ^ 64) :
    handle_command S "g" = some (S, gReply S.cpu_state) ∧
    (gReply S.cpu_state).data.length = S.cpu_state.NUM_REGISTERS * 16 ∧
    ∀ c ∈ (gReply S.cpu_state).data, isLowerHexDigit c = true := by
  refine ⟨rfl, ?_, (gReply_spec S.cpu_state).2⟩
  rw [(gReply_spec S.cpu_state).1 hbound, hlen]

theorem c8_register_read_witness :
    handle_command (mkServer [] ⟨1, 0, [], [0], true⟩) "g" =
      some (mkServer [] ⟨1, 0, [], [0], true⟩, gReply ⟨1, 0, [], [0], true⟩) ∧
    (gReply (⟨1, 0, [], [0], true⟩ : CpuState)).data.length = 1 * 16 :=
  ⟨(c8_register_read (mkServer [] ⟨1, 0, [], [0], true⟩) (by decide) (by decide)).1,
    (c8_register_read (mkServer [] ⟨1, 0, [], [0], true⟩) (by decide) (by decide)).2.1⟩

/-- C8 counterexample: after `P0=ffffffffffffffffff` (an 18-hex-digit
value, which the handler stores without masking), the so-reached session
state answers `g` with 18 hex digits on a 1-register profile — not
`NUM_REGISTERS * 16 = 16` — so the claim fails for states reached after
arbitrary `P` commands. -/
theorem c8_counterexample :
    ((handle_command (mkServer [] ⟨1, 0, [], [0], true⟩) "P0=ffffffffffffffffff").bind
        (fun out => handle_command out.1 "g")).map
      (fun out => out.2.data.length) = some 18 ∧ (18 : Nat) ≠ 1 * 16 := by
  constructor
  · decide
  · decide

/-! ### Claim C9: out-of-range register access -/

theorem headD_ne_E_of_lower (r : String)
    (h : ∀ c ∈ r.data, isLowerHexDigit c = true) :
    r.data.headD ' ' ≠ 'E' := by
  cases hr : r.data with
  | nil => decide
  | cons c tl =>
    have hc := h c (hr ▸ List.mem_cons_self c tl)
    simp only [List.headD_cons]
    intro he
    subst he
    exact absurd hc (by decide)

theorem get_mem_lower (s : CpuState) (a : String) (n : Nat) :
    ∀ c ∈ (s.get_mem a n).data, isLowerHexDigit c = true := by
  intro c hc
  unfold CpuState.get_mem getMemChars at hc
  obtain ⟨b, -, hb⟩ := List.mem_flatMap.mp hc
  exact formatHexPad_lower 2 b c hb

theorem digitChar_lt10_ne_E : ∀ k, k < 10 → Nat.digitChar k ≠ 'E' := by
  decide

theorem toDigitsCore10_mem :
    ∀ (fuel n : Nat) (ds : List Char) (c : Char),
      c ∈ Nat.toDigitsCore 10 fuel n ds →
        c ∈ ds ∨ ∃ k, k < 10 ∧ c = Nat.digitChar k := by
  intro fuel
  induction fuel with
  | zero =>
    intro n ds c hc
    exact Or.inl hc
  | succ fuel ih =>
    intro n ds c hc
    simp only [Nat.toDigitsCore] at hc
    have hm : n % 10 < 10 := Nat.mod_lt n (by norm_num)
    by_cases hq : n / 10 = 0
    · rw [if_pos hq] at hc
      rcases List.mem_cons.mp hc with h1 | h1
      · exact Or.inr ⟨n % 10, hm, h1⟩
      · exact Or.inl h1
    · rw [if_neg hq] at hc
      rcases ih (n / 10) (Nat.digitChar (n % 10) :: ds) c hc with h1 | h1
      · rcases List.mem_cons.mp h1 with h2 | h2
        · exact Or.inr ⟨n % 10, hm, h2⟩
        · exact Or.inl h2
      · exact Or.inr h1

theorem natRepr_head (n : Nat) : (Nat.repr n).data.headD ' ' ≠ 'E' := by
  show (Nat.toDigitsCore 10 (n + 1) n []).headD ' ' ≠ 'E'
  cases hl : Nat.toDigitsCore 10 (n + 1) n [] with
  | nil => decide
  | cons c tl =>
    simp only [List.headD_cons]
    intro he
    subst he
    rcases toDigitsCore10_mem (n + 1) n [] 'E' (hl ▸ List.mem_cons_self 'E' tl)
      with h1 | ⟨k, hk, he2⟩
    · exact absurd h1 (List.not_mem_nil 'E')
    · exact digitChar_lt10_ne_E k hk he2.symm

theorem int_toString_head (i : Int) : (toString i).data.headD ' ' ≠ 'E' := by
  cases i with
  | ofNat n => exact natRepr_head n
  | negSucc n =>
    have he : toString (Int.negSucc n) = "-" ++ Nat.repr (n + 1) := rfl
    rw [he, String.data_append]
    show ('-' :: (Nat.repr (n + 1)).data).headD ' ' ≠ 'E'
    simp only [List.headD_cons]
    decide

theorem handleG_reply (S : ServerState) (c : String) (S' : ServerState) (r : String)
    (h : handleG S c = some (S', r)) : r = "OK" := by
  unfold handleG at h
  split at h
  · simp only [Option.some.injEq, Prod.mk.injEq] at h
    exact h.2.symm
  · exact Option.noConfusion h

theorem handleReadReg_reply (S : ServerState) (rest : List Char) (S' : ServerState)
    (r : String) (h : handleReadReg S rest = some (S', r)) :
    r = "" ∨ ∀ c ∈ r.data, isLowerHexDigit c = true := by
  unfold handleReadReg at h
  split at h
  · simp only [Option.some.injEq, Prod.mk.injEq] at h
    exact Or.inl h.2.symm
  · simp only [Option.some.injEq, Prod.mk.injEq] at h
    refine Or.inr ?_
    rw [← h.2]
    intro c hc
    exact formatHexPad_lower 16 _ c (swapPairs_mem _ c hc)

theorem handleWriteReg_reply (S : ServerState) (rest : List Char) (S' : ServerState)
    (r : String) (h : handleWriteReg S rest = some (S', r)) :
    r = "" ∨ r = "OK" := by
  unfold handleWriteReg at h
  repeat' split at h
  all_goals
    first
    | exact Option.noConfusion h
    | (simp only [Option.some.injEq, Prod.mk.injEq] at h
       first
       | exact Or.inl h.2.symm
       | exact Or.inr h.2.symm)

theorem handleReadMem_reply (S : ServerState) (rest : List Char) (S' : ServerState)
    (r : String) (h : handleReadMem S rest = some (S', r)) :
    r = "" ∨ ∀ c ∈ r.data, isLowerHexDigit c = true := by
  unfold handleReadMem at h
  repeat' split at h
  all_goals
    first
    | exact Option.noConfusion h
    | (simp only [Option.some.injEq, Prod.mk.injEq] at h
       first
       | exact Or.inl h.2.symm
       | (refine Or.inr ?_
          rw [← h.2]
          exact get_mem_lower S.cpu_state _ _))

theorem handleWriteMem_reply (S : ServerState) (rest : List Char) (S' : ServerState)
    (r : String) (h : handleWriteMem S rest = some (S', r)) :
    r = "" ∨ r = "OK" := by
  unfold handleWriteMem at h
  repeat' split at h
  all_goals
    first
    | exact Option.noConfusion h
    | (simp only [Option.some.injEq, Prod.mk.injEq] at h
       first
       | exact Or.inl h.2.symm
       | exact Or.inr h.2.symm)

theorem handleH_reply (S : ServerState) (c : String) (S' : ServerState) (r : String)
    (h : handleH S c = some (S', r)) : r = "" ∨ r = "OK" := by
  unfold handleH at h
  repeat' split at h
  all_goals
    first
    | exact Option.noConfusion h
    | (simp only [Option.some.injEq, Prod.mk.injEq] at h
       first
       | exact Or.inl h.2.symm
       | exact Or.inr h.2.symm)

theorem cont_loop_reply (S : ServerState) :
    (cont_loop S).2 = "S05" ∨ (cont_loop S).2 = "W00" := by
  induction S using cont_loop.induct with
  | case1 x S1 hstep hmem =>
    rw [cont_loop_eq_true x S1 hstep, if_pos hmem]
    exact Or.inl rfl
  | case2 x S1 hstep hmem ih =>
    rw [cont_loop_eq_true x S1 hstep, if_neg hmem]
    exact ih
  | case3 x S1 hstep =>
    rw [cont_loop_eq_false x S1 hstep]
    exact Or.inr rfl

theorem reverse_cont_loop_eq_true (x S1 : ServerState)
    (hstep : reverse_step_inner x = (S1, true)) :
    reverse_cont_loop x =
      if S1.cpu_state.pc ∈ S1.breakpoints then (S1, "S05")
      else reverse_cont_loop S1 := by
  rw [reverse_cont_loop.eq_def, hstep]

theorem reverse_cont_loop_eq_false (x S1 : ServerState)
    (hstep : reverse_step_inner x = (S1, false)) :
    reverse_cont_loop x = (stopServer S1, "W00") := by
  rw [reverse_cont_loop.eq_def, hstep]

theorem reverse_cont_loop_reply (S : ServerState) :
    (reverse_cont_loop S).2 = "S05" ∨ (reverse_cont_loop S).2 = "W00" := by
  induction S using reverse_cont_loop.induct with
  | case1 x S1 hstep hmem =>
    rw [reverse_cont_loop_eq_true x S1 hstep, if_pos hmem]
    exact Or.inl rfl
  | case2 x S1 hstep hmem ih =>
    rw [reverse_cont_loop_eq_true x S1 hstep, if_neg hmem]
    exact ih
  | case3 x S1 hstep =>
    rw [reverse_cont_loop_eq_false x S1 hstep]
    exact Or.inr rfl

theorem vcont_foldl_reply (actions : List (List Char)) :
    ∀ acc : ServerState × String,
      (acc.2 = "OK" ∨ acc.2 = "S05" ∨ acc.2 = "W00") →
      ((actions.foldl vcontAction acc).2 = "OK" ∨
        (actions.foldl vcontAction acc).2 = "S05" ∨
        (actions.foldl vcontAction acc).2 = "W00") := by
  induction actions with
  | nil => exact fun acc hp => hp
  | cons a rest ih =>
    intro acc hp
    refine ih (vcontAction acc a) ?_
    unfold vcontAction
    repeat' split
    · exact hp
    · exact Or.inr (Or.inl (step_command_fst acc.1).2)
    · rcases cont_loop_reply acc.1 with h1 | h1
      · exact Or.inr (Or.inl h1)
      · exact Or.inr (Or.inr h1)
    · exact hp

theorem handle_vcont_reply (S : ServerState) (cmd : String) :
    (handle_vcont S cmd).2 = "vCont;c;s" ∨ (handle_vcont S cmd).2 = "OK" ∨
      (handle_vcont S cmd).2 = "S05" ∨ (handle_vcont S cmd).2 = "W00" := by
  unfold handle_vcont
  split
  · exact Or.inl rfl
  · exact Or.inr (vcont_foldl_reply _ (S, "OK") (Or.inl rfl))

theorem not_prefix_of_head_ne {a b : Char} (h : a ≠ b) (l1 l2 : List Char) :
    ¬ (a :: l1 <+: b :: l2) := fun hp => h (List.cons_prefix_cons.mp hp).1

theorem mk_ne_of_head {a b : Char} (h : a ≠ b) (l1 l2 : List Char) :
    String.mk (a :: l1) ≠ String.mk (b :: l2) := by
  intro he
  injection he with hd
  injection hd with h1 h2
  exact h h1

theorem reply_of_pair {X S' : ServerState} {y r : String}
    (h : some (X, y) = some (S', r)) : r = y := by
  injection h with hpair
  injection hpair with h1 h2
  exact h2.symm

theorem takeWhile_all {α : Type} (p : α → Bool) :
    ∀ l : List α, (∀ c ∈ l, p c = true) → l.takeWhile p = l := by
  intro l
  induction l with
  | nil => intro h; rfl
  | cons a t ih =>
    intro h
    rw [List.takeWhile_cons, if_pos (h a (List.mem_cons_self a t))]
    rw [ih (fun c hc => h c (List.mem_cons_of_mem a hc))]

theorem takeWhile_append_stop {p : Char → Bool} :
    ∀ (l : List Char) (x : Char) (r : List Char),
      (∀ c ∈ l, p c = true) → p x = false →
      (l ++ x :: r).takeWhile p = l := by
  intro l x r hall hx
  induction l with
  | nil =>
    rw [List.nil_append, List.takeWhile_cons, if_neg (by simp [hx])]
  | cons a t ih =>
    rw [List.cons_append, List.takeWhile_cons,
      if_pos (hall a (List.mem_cons_self a t)),
      ih (fun c hc => hall c (List.mem_cons_of_mem a hc))]

/-- Dispatch selection: a `p`-prefixed command reaches the `p` branch. -/
theorem handle_command_p (S : ServerState) (ds : List Char) :
    handle_command S (String.mk ('p' :: ds)) = handleReadReg S ds := by
  have c1 : ¬ ("qSupported".data <+: (String.mk ('p' :: ds)).data) :=
    not_prefix_of_head_ne (by decide) _ _
  have c2 : ¬ (String.mk ('p' :: ds) = "?") := mk_ne_of_head (by decide) _ _
  have c3 : ¬ (String.mk ('p' :: ds) = "g") := mk_ne_of_head (by decide) _ _
  have c4 : ¬ ("G".data <+: (String.mk ('p' :: ds)).data) :=
    not_prefix_of_head_ne (by decide) _ _
  have c5 : ("p".data <+: (String.mk ('p' :: ds)).data) :=
    List.cons_prefix_cons.mpr ⟨rfl, List.nil_prefix⟩
  unfold handle_command
  rw [if_neg c1, if_neg c2, if_neg c3, if_neg c4, if_pos c5]
  rfl

/-- Dispatch selection: a `P`-prefixed command reaches the `P` branch. -/
theorem handle_command_P_sel (S : ServerState) (ds : List Char) :
    handle_command S (String.mk ('P' :: ds)) = handleWriteReg S ds := by
  have c1 : ¬ ("qSupported".data <+: (String.mk ('P' :: ds)).data) :=
    not_prefix_of_head_ne (by decide) _ _
  have c2 : ¬ (String.mk ('P' :: ds) = "?") := mk_ne_of_head (by decide) _ _
  have c3 : ¬ (String.mk ('P' :: ds) = "g") := mk_ne_of_head (by decide) _ _
  have c4 : ¬ ("G".data <+: (String.mk ('P' :: ds)).data) :=
    not_prefix_of_head_ne (by decide) _ _
  have c5 : ¬ ("p".data <+: (String.mk ('P' :: ds)).data) :=
    not_prefix_of_head_ne (by decide) _ _
  have c6 : ("P".data <+: (String.mk ('P' :: ds)).data) :=
    List.cons_prefix_cons.mpr ⟨rfl, List.nil_prefix⟩
  unfold handle_command
  rw [if_neg c1, if_neg c2, if_neg c3, if_neg c4, if_neg c5, if_pos c6]
  rfl

/-- No branch of the dispatcher ever produces an `E<nn>` error packet: the
reply of every completing command has a first character other than `E`. -/
theorem handle_command_no_error (S : ServerState) (cmd : String) (S' : ServerState)
    (r : String) (h : handle_command S cmd = some (S', r)) :
    r.data.headD ' ' ≠ 'E' := by
  unfold handle_command at h
  by_cases c1 : ("qSupported".data <+: cmd.data)
  · rw [if_pos c1] at h
    rw [reply_of_pair h]
    decide
  rw [if_neg c1] at h
  by_cases c2 : cmd = "?"
  · rw [if_pos c2] at h
    rw [reply_of_pair h]
    decide
  rw [if_neg c2] at h
  by_cases c3 : cmd = "g"
  · rw [if_pos c3] at h
    rw [reply_of_pair h]
    exact headD_ne_E_of_lower _ (gReply_spec S.cpu_state).2
  rw [if_neg c3] at h
  by_cases c4 : ("G".data <+: cmd.data)
  · rw [if_pos c4] at h
    rw [handleG_reply _ _ _ _ h]
    decide
  rw [if_neg c4] at h
  by_cases c5 : ("p".data <+: cmd.data)
  · rw [if_pos c5] at h
    rcases handleReadReg_reply _ _ _ _ h with h1 | h1
    · rw [h1]
      decide
    · exact headD_ne_E_of_lower _ h1
  rw [if_neg c5] at h
  by_cases c6 : ("P".data <+: cmd.data)
  · rw [if_pos c6] at h
    rcases handleWriteReg_reply _ _ _ _ h with h1 | h1 <;> rw [h1] <;> decide
  rw [if_neg c6] at h
  by_cases c7 : ("m".data <+: cmd.data)
  · rw [if_pos c7] at h
    rcases handleReadMem_reply _ _ _ _ h with h1 | h1
    · rw [h1]
      decide
    · exact headD_ne_E_of_lower _ h1
  rw [if_neg c7] at h
  by_cases c8 : ("M".data <+: cmd.data)
  · rw [if_pos c8] at h
    rcases handleWriteMem_reply _ _ _ _ h with h1 | h1 <;> rw [h1] <;> decide
  rw [if_neg c8] at h
  by_cases c9 : ("c".data <+: cmd.data)
  · rw [if_pos c9] at h
    have hr : r = (cont_loop S).2 := by rw [Option.some_inj.mp h]
    rw [hr]
    rcases cont_loop_reply S with h1 | h1 <;> rw [h1] <;> decide
  rw [if_neg c9] at h
  by_cases c10 : ("s".data <+: cmd.data)
  · rw [if_pos c10] at h
    have hr : r = (step_command S).2 := by rw [Option.some_inj.mp h]
    rw [hr, (step_command_fst S).2]
    decide
  rw [if_neg c10] at h
  by_cases c11 : ("bc".data <+: cmd.data)
  · rw [if_pos c11] at h
    have hr : r = (reverse_cont_loop S).2 := by rw [Option.some_inj.mp h]
    rw [hr]
    rcases reverse_cont_loop_reply S with h1 | h1 <;> rw [h1] <;> decide
  rw [if_neg c11] at h
  by_cases c12 : ("bs".data <+: cmd.data)
  · rw [if_pos c12] at h
    have hr : r = (reverse_step_command S).2 := by rw [Option.some_inj.mp h]
    rw [hr, (reverse_step_command_fst S).2]
    decide
  rw [if_neg c12] at h
  by_cases c13 : ("D".data <+: cmd.data)
  · rw [if_pos c13] at h
    rw [reply_of_pair h]
    decide
  rw [if_neg c13] at h
  by_cases c14 : ("H".data <+: cmd.data)
  · rw [if_pos c14] at h
    rcases handleH_reply _ _ _ _ h with h1 | h1 <;> rw [h1] <;> decide
  rw [if_neg c14] at h
  by_cases c15 : cmd = "qC"
  · rw [if_pos c15] at h
    rw [reply_of_pair h]
    exact int_toString_head S.cont_thread
  rw [if_neg c15] at h
  by_cases c16 : ("Z".data <+: cmd.data)
  · rw [if_pos c16] at h
    rcases hz : parseZ (cmd.data.drop 1) with - | addr <;> rw [hz] at h <;>
      rw [reply_of_pair h] <;> decide
  rw [if_neg c16] at h
  by_cases c17 : ("z".data <+: cmd.data)
  · rw [if_pos c17] at h
    rcases hz : parseZ (cmd.data.drop 1) with - | addr <;> rw [hz] at h <;>
      rw [reply_of_pair h] <;> decide
  rw [if_neg c17] at h
  by_cases c18 : cmd = "qSymbol::"
  · rw [if_pos c18] at h
    rw [reply_of_pair h]
    decide
  rw [if_neg c18] at h
  by_cases c19 : cmd = "vMustReplyEmpty"
  · rw [if_pos c19] at h
    rw [reply_of_pair h]
    decide
  rw [if_neg c19] at h
  by_cases c20 : cmd = "qAttached"
  · rw [if_pos c20] at h
    rw [reply_of_pair h]
    decide
  rw [if_neg c20] at h
  by_cases c21 : ("vCont".data <+: cmd.data)
  · rw [if_pos c21] at h
    have hr : r = (handle_vcont S cmd).2 := by rw [Option.some_inj.mp h]
    rw [hr]
    rcases handle_vcont_reply S cmd with h1 | h1 | h1 | h1 <;> rw [h1] <;> decide
  rw [if_neg c21] at h
  rw [reply_of_pair h]
  decide

/-- C9 (amended: the `P` part additionally requires an even-length value,
since the handler byte-swaps the value before the range test and an
odd-length value fails the swap assert, i.e. raises).  Out-of-range `p`
reads reply with the 16-digit encoding of 0 and change nothing;
out-of-range `P` writes with even-length values are dropped and still
reply OK; and no reply of any completing command ever starts an `E<nn>`
error packet. -/
theorem c9_out_of_range_registers :
    (∀ (S : ServerState) (ds : List Char), ds ≠ [] →
      (∀ c ∈ ds, isHexChar c = true) →
      S.cpu_state.NUM_REGISTERS ≤ hexVal ds →
      handle_command S (String.mk ('p' :: ds)) =
        some (S, String.mk (List.replicate 16 '0'))) ∧
    (∀ (S : ServerState) (ds vs : List Char), ds ≠ [] →
      (∀ c ∈ ds, isHexChar c = true) → vs ≠ [] →
      (∀ c ∈ vs, isHexChar c = true) → vs.length % 2 = 0 →
      S.cpu_state.NUM_REGISTERS ≤ hexVal ds →
      handle_command S (String.mk ('P' :: (ds ++ '=' :: vs))) = some (S, "OK")) ∧
    (∀ (S : ServerState) (cmd : String) (S' : ServerState) (r : String),
      handle_command S cmd = some (S', r) → r.data.headD ' ' ≠ 'E') := by
  refine ⟨?_, ?_, handle_command_no_error⟩
  · intro S ds hne hhex hge
    rw [handle_command_p]
    unfold handleReadReg
    rw [takeWhile_all isHexChar ds hhex]
    rw [if_neg (fun hh => hne (List.isEmpty_iff.mp hh))]
    unfold readRegValue
    rw [if_neg (Nat.not_lt.mpr hge)]
    have hz : swapPairs (formatHexPad 16 0) = List.replicate 16 '0' := by decide
    rw [hz]
  · intro S ds vs hne hhex hvne hvhex heven hge
    rw [handle_command_P_sel S (ds ++ '=' :: vs)]
    unfold handleWriteReg
    rw [takeWhile_append_stop ds '=' vs hhex (by decide)]
    rw [if_neg (fun hh => hne (List.isEmpty_iff.mp hh))]
    rw [List.drop_left ds ('=' :: vs)]
    show (if (vs.takeWhile isHexChar).isEmpty = true then some (S, "")
      else if (vs.takeWhile isHexChar).length % 2 ≠ 0 then none
      else if hexVal ds < S.cpu_state.NUM_REGISTERS then
        some ({ S with cpu_state :=
          { S.cpu_state with
            registers := (S.cpu_state.registers.set (hexVal ds)
              (hexVal (swapPairs (vs.takeWhile isHexChar)))) } }, "OK")
      else some (S, "OK")) = some (S, "OK")
    rw [takeWhile_all isHexChar vs hvhex]
    rw [if_neg (fun hh => hvne (List.isEmpty_iff.mp hh))]
    rw [if_neg (fun hh => hh heven)]
    rw [if_neg (Nat.not_lt.mpr hge)]

theorem c9_out_of_range_registers_witness :
    handle_command (mkServer [] ⟨1, 0, [], [0], true⟩) (String.mk ['p', '5']) =
      some (mkServer [] ⟨1, 0, [], [0], true⟩, String.mk (List.replicate 16 '0')) ∧
    handle_command (mkServer [] ⟨1, 0, [], [0], true⟩)
        (String.mk ('P' :: (['5'] ++ '=' :: ['a', 'b']))) =
      some (mkServer [] ⟨1, 0, [], [0], true⟩, "OK") :=
  ⟨c9_out_of_range_registers.1 _ ['5'] (by decide) (by decide) (by decide),
    c9_out_of_range_registers.2.1 _ ['5'] ['a', 'b'] (by decide) (by decide)
      (by decide) (by decide) (by decide) (by decide)⟩

/-- C9 counterexample: `P1=abc` addresses register 1, out of range on a
1-register profile, with an odd-length value; the handler hits the
`swap_endianess` assert before the range check, so the command raises
(modeled `none`) instead of dropping the write and replying OK. -/
theorem c9_counterexample :
    handle_command (mkServer [] ⟨1, 0, [], [0], true⟩) "P1=abc" = none := by
  decide

/-! ### Claim C10: memory reads are pure -/

/-- Dispatch selection: an `m`-prefixed command reaches the `m` branch. -/
theorem handle_command_m (S : ServerState) (ds : List Char) :
    handle_command S (String.mk ('m' :: ds)) = handleReadMem S ds := by
  have c1 : ¬ ("qSupported".data <+: (String.mk ('m' :: ds)).data) :=
    not_prefix_of_head_ne (by decide) _ _
  have c2 : ¬ (String.mk ('m' :: ds) = "?") := mk_ne_of_head (by decide) _ _
  have c3 : ¬ (String.mk ('m' :: ds) = "g") := mk_ne_of_head (by decide) _ _
  have c4 : ¬ ("G".data <+: (String.mk ('m' :: ds)).data) :=
    not_prefix_of_head_ne (by decide) _ _
  have c5 : ¬ ("p".data <+: (String.mk ('m' :: ds)).data) :=
    not_prefix_of_head_ne (by decide) _ _
  have c6 : ¬ ("P".data <+: (String.mk ('m' :: ds)).data) :=
    not_prefix_of_head_ne (by decide) _ _
  have c7 : ("m".data <+: (String.mk ('m' :: ds)).data) :=
    List.cons_prefix_cons.mpr ⟨rfl, List.nil_prefix⟩
  unfold handle_command
  rw [if_neg c1, if_neg c2, if_neg c3, if_neg c4, if_neg c5, if_neg c6, if_pos c7]
  rfl

/-- C10 (confirmed).  Handling a well-formed `m<addr>,<len>` command leaves
the session state identical — same memory mapping (no sentinel bytes are
materialized), registers, cursor, reverse-delta buffer, breakpoints and
running flag — and replies with `get_mem`; every completion of the `m`
branch, well-formed or not, leaves the state unchanged; consequently
reading the same range twice in a row returns identical results. -/
theorem c10_memory_read_pure :
    (∀ (S : ServerState) (addr len : List Char), addr ≠ [] →
      (∀ c ∈ addr, isHexChar c = true) → len ≠ [] →
      (∀ c ∈ len, isHexChar c = true) →
      handle_command S (String.mk ('m' :: (addr ++ ',' :: len))) =
        some (S, S.cpu_state.get_mem (String.mk addr) (hexVal len))) ∧
    (∀ (S : ServerState) (rest : List Char) (S' : ServerState) (r : String),
      handleReadMem S rest = some (S', r) → S' = S) ∧
    (∀ (S : ServerState) (addr len : List Char), addr ≠ [] →
      (∀ c ∈ addr, isHexChar c = true) → len ≠ [] →
      (∀ c ∈ len, isHexChar c = true) →
      ((handle_command S (String.mk ('m' :: (addr ++ ',' :: len)))).bind
          (fun out => handle_command out.1 (String.mk ('m' :: (addr ++ ',' :: len))))) =
        handle_command S (String.mk ('m' :: (addr ++ ',' :: len)))) := by
  have hmain : ∀ (S : ServerState) (addr len : List Char), addr ≠ [] →
      (∀ c ∈ addr, isHexChar c = true) → len ≠ [] →
      (∀ c ∈ len, isHexChar c = true) →
      handle_command S (String.mk ('m' :: (addr ++ ',' :: len))) =
        some (S, S.cpu_state.get_mem (String.mk addr) (hexVal len)) := by
    intro S addr len hane hahex hlne hlhex
    rw [handle_command_m S (addr ++ ',' :: len)]
    unfold handleReadMem
    rw [takeWhile_append_stop addr ',' len hahex (by decide)]
    rw [if_neg (fun hh => hane (List.isEmpty_iff.mp hh))]
    rw [List.drop_left addr (',' :: len)]
    show (if (len.takeWhile isHexChar).isEmpty = true then some (S, "")
      else
        some (S, S.cpu_state.get_mem (String.mk addr)
          (hexVal (len.takeWhile isHexChar)))) =
      some (S, S.cpu_state.get_mem (String.mk addr) (hexVal len))
    rw [takeWhile_all isHexChar len hlhex]
    rw [if_neg (fun hh => hlne (List.isEmpty_iff.mp hh))]
  refine ⟨hmain, handleReadMem_state, ?_⟩
  intro S addr len hane hahex hlne hlhex
  rw [hmain S addr len hane hahex hlne hlhex]
  show handle_command S (String.mk ('m' :: (addr ++ ',' :: len))) =
    some (S, S.cpu_state.get_mem (String.mk addr) (hexVal len))
  exact hmain S addr len hane hahex hlne hlhex

theorem c10_memory_read_pure_witness :
    handle_command (mkServer [] ⟨1, 0, [], [0], true⟩)
        (String.mk ('m' :: (['1', '0', '0'] ++ ',' :: ['2']))) =
      some (mkServer [] ⟨1, 0, [], [0], true⟩,
        (⟨1, 0, [], [0], true⟩ : CpuState).get_mem (String.mk ['1', '0', '0'])
          (hexVal ['2'])) :=
  c10_memory_read_pure.1 (mkServer [] ⟨1, 0, [], [0], true⟩) ['1', '0', '0'] ['2']
    (by decide) (by decide) (by decide) (by decide)

/-! ### Claims C1 and C3: reversibility.  List and codec groundwork. -/

theorem getD_set_self {α : Type} :
    ∀ (l : List α) (i : Nat) (v d : α), i < l.length → (l.set i v).getD i d = v := by
  intro l
  induction l with
  | nil =>
    intro i v d h
    simp at h
  | cons a t ih =>
    intro i v d h
    cases i with
    | zero => rfl
    | succ i =>
      simp only [List.set_cons_succ, List.getD_cons_succ]
      exact ih i v d (by simpa using h)

theorem getD_set_ne {α : Type} :
    ∀ (l : List α) (i j : Nat) (v : α) (d : α), i ≠ j →
      (l.set i v).getD j d = l.getD j d := by
  intro l
  induction l with
  | nil => intro i j v d h; rfl
  | cons a t ih =>
    intro i j v d h
    cases i with
    | zero =>
      cases j with
      | zero => exact absurd rfl h
      | succ j => rfl
    | succ i =>
      cases j with
      | zero => rfl
      | succ j =>
        simp only [List.set_cons_succ, List.getD_cons_succ]
        exact ih i j v d (fun he => h (by rw [he]))

theorem list_ext_getD :
    ∀ (l1 l2 : List Nat), l1.length = l2.length →
      (∀ j, j < l1.length → l1.getD j 0 = l2.getD j 0) → l1 = l2 := by
  intro l1
  induction l1 with
  | nil =>
    intro l2 hl hp
    cases l2 with
    | nil => rfl
    | cons b t => simp at hl
  | cons a t ih =>
    intro l2 hl hp
    cases l2 with
    | nil => simp at hl
    | cons b t2 =>
      have h0 := hp 0 (by simp)
      simp only [List.getD_cons_zero] at h0
      subst h0
      congr 1
      refine ih t2 (by simpa using hl) ?_
      intro j hj
      have := hp (j + 1) (by simpa using Nat.succ_lt_succ hj)
      simpa using this

theorem set_getD_eq {α : Type} :
    ∀ (l : List α) (i : Nat) (d : α), i < l.length → l.set i (l.getD i d) = l := by
  intro l
  induction l with
  | nil => intro i d h; rfl
  | cons a t ih =>
    intro i d h
    cases i with
    | zero => rfl
    | succ i =>
      simp only [List.getD_cons_succ, List.set_cons_succ]
      rw [ih i d (by simpa using h)]

theorem hexDigVal_lt (c : Char) : hexDigVal c < 16 := by
  unfold hexDigVal
  split_ifs with h1 h2 h3
  · obtain ⟨ha, hb⟩ := Bool.and_eq_true_iff.mp h1
    have hle : c.toNat ≤ '9'.toNat := Char.le_def.mp (of_decide_eq_true hb)
    have h9 : '9'.toNat = 57 := rfl
    have h0 : '0'.toNat = 48 := rfl
    omega
  · obtain ⟨ha, hb⟩ := Bool.and_eq_true_iff.mp h2
    have hle : c.toNat ≤ 'f'.toNat := Char.le_def.mp (of_decide_eq_true hb)
    have hge : 'a'.toNat ≤ c.toNat := Char.le_def.mp (of_decide_eq_true ha)
    have hf : 'f'.toNat = 102 := rfl
    have hA : 'a'.toNat = 97 := rfl
    omega
  · obtain ⟨ha, hb⟩ := Bool.and_eq_true_iff.mp h3
    have hle : c.toNat ≤ 'F'.toNat := Char.le_def.mp (of_decide_eq_true hb)
    have hge : 'A'.toNat ≤ c.toNat := Char.le_def.mp (of_decide_eq_true ha)
    have hf : 'F'.toNat = 70 := rfl
    have hA : 'A'.toNat = 65 := rfl
    omega
  · omega

theorem hexVal_nil : hexVal [] = 0 := rfl

theorem hexVal_le_two (cs : List Char) (h : cs.length ≤ 2) : hexVal cs < 256 := by
  rcases cs with - | ⟨a, - | ⟨b, - | ⟨c, t⟩⟩⟩
  · exact by norm_num [hexVal]
  · have := hexDigVal_lt a
    show 16 * 0 + hexDigVal a < 256
    omega
  · have ha := hexDigVal_lt a
    have hb := hexDigVal_lt b
    show 16 * (16 * 0 + hexDigVal a) + hexDigVal b < 256
    omega
  · simp at h

theorem hexVal_append_singleton (xs : List Char) (c : Char) :
    hexVal (xs ++ [c]) = 16 * hexVal xs + hexDigVal c := by
  unfold hexVal
  rw [List.foldl_append]
  rfl

theorem hexDigVal_hexDigitChar : ∀ n, n < 16 → hexDigVal (hexDigitChar n) = n := by
  decide

theorem hexVal_natToHex (n : Nat) : hexVal (natToHex n) = n := by
  induction n using Nat.strong_induction_on with
  | _ n ih =>
    by_cases h : n < 16
    · rw [natToHex_lt16 n h]
      show 16 * 0 + hexDigVal (hexDigitChar n) = n
      rw [hexDigVal_hexDigitChar n h]
      omega
    · rw [natToHex_ge16 n h, hexVal_append_singleton]
      rw [ih (n / 16) (Nat.div_lt_self (by omega) (by norm_num))]
      rw [hexDigVal_hexDigitChar (n % 16) (Nat.mod_lt n (by norm_num))]
      omega

theorem hexVal_replicate_zero_append :
    ∀ (k : Nat) (cs : List Char),
      hexVal (List.replicate k '0' ++ cs) = hexVal cs := by
  intro k
  induction k with
  | zero => intro cs; rfl
  | succ k ih =>
    intro cs
    rw [List.replicate_succ, List.cons_append]
    show (('0' :: (List.replicate k '0' ++ cs)).foldl
      (fun a c => 16 * a + hexDigVal c) 0) = hexVal cs
    rw [List.foldl_cons]
    have h0 : (16 * 0 + hexDigVal '0') = 0 := by decide
    rw [h0]
    exact ih cs

theorem hexVal_formatHexPad (w b : Nat) : hexVal (formatHexPad w b) = b := by
  unfold formatHexPad
  rw [hexVal_replicate_zero_append, hexVal_natToHex]

/-! ### Memory-phase lemmas -/

/-- All stored bytes fit in a byte (true of every state the server builds,
since `set_mem` only stores two-hex-digit parses). -/
abbrev WfMemB (m : Mem) : Prop := ∀ p ∈ m, p.2 < 256

/-- Pointwise observational equality of two memory dicts. -/
def memAgree (m m' : Mem) : Prop := ∀ a, memRead m a = memRead m' a

theorem memRead_memSet_self (m : Mem) (a v : Nat) :
    memRead (memSet m a v) a = v := by
  unfold memRead memSet memLookup
  rw [if_pos rfl]
  rfl

theorem memRead_memSet_ne (m : Mem) (a v x : Nat) (h : a ≠ x) :
    memRead (memSet m a v) x = memRead m x := by
  show (memLookup ((a, v) :: m) x).getD UNSET_MEM_VALUE =
    (memLookup m x).getD UNSET_MEM_VALUE
  rw [show memLookup ((a, v) :: m) x = if a = x then some v else memLookup m x
    from rfl]
  rw [if_neg h]

theorem memRead_lt (m : Mem) (h : WfMemB m) (a : Nat) : memRead m a < 256 := by
  induction m with
  | nil =>
    show UNSET_MEM_VALUE < 256
    decide
  | cons p t ih =>
    unfold memRead memLookup
    split
    · exact h p (List.mem_cons_self p t)
    · exact ih (fun q hq => h q (List.mem_cons_of_mem p hq))

theorem foldl_memSet_wf (addr : Nat) (cs : List Char) :
    ∀ (idxs : List Nat) (m : Mem), WfMemB m →
      WfMemB (idxs.foldl (fun acc offs => memSet acc (addr + offs)
        (hexVal ((cs.drop offs).take 2))) m) := by
  intro idxs
  induction idxs with
  | nil => exact fun m h => h
  | cons i t ih =>
    intro m hm
    rw [List.foldl_cons]
    refine ih _ ?_
    intro p hp
    rcases List.mem_cons.mp hp with h1 | h1
    · rw [h1]
      exact hexVal_le_two _ (List.length_take_le 2 _)
    · exact hm p h1

theorem setMemChars_wf (m : Mem) (addr : Nat) (cs : List Char) (h : WfMemB m) :
    WfMemB (setMemChars m addr cs) :=
  foldl_memSet_wf addr cs _ m h

theorem applyMw_cons (m : Mem) (a hexv : String) (rest : List (String × String)) :
    applyMw m ((a, hexv) :: rest) =
      ((applyMw (setMemChars m (hexstr_to_int a) hexv.data) rest).1,
       (a, String.mk (getMemChars m (hexstr_to_int a) (hexv.data.length / 2))) ::
         (applyMw (setMemChars m (hexstr_to_int a) hexv.data) rest).2) := rfl

theorem applyMw_wf : ∀ (l : List (String × String)) (m : Mem), WfMemB m →
    WfMemB (applyMw m l).1 := by
  intro l
  induction l with
  | nil => exact fun m h => h
  | cons av rest ih =>
    intro m hm
    rcases av with ⟨a, hexv⟩
    rw [applyMw_cons]
    exact ih _ (setMemChars_wf m _ _ hm)

theorem setMemChars_pair (m : Mem) (addr : Nat) (cs : List Char)
    (h : cs.length = 2) :
    setMemChars m addr cs = memSet m addr (hexVal cs) := by
  rcases cs with - | ⟨a, - | ⟨b, - | ⟨c, t⟩⟩⟩
  · simp at h
  · simp at h
  · have hr : List.range 1 = [0] := by decide
    simp [setMemChars, hr]
  · simp at h

theorem getMemChars_one (m : Mem) (addr : Nat) :
    getMemChars m addr 1 = formatHexPad 2 (memRead m addr) := by
  show (([0].map (fun i => memRead m (addr + i))).flatMap
    (fun b => formatHexPad 2 b)) = formatHexPad 2 (memRead m addr)
  simp

theorem getMemChars_congr (m m' : Mem) (h : memAgree m m') (addr n : Nat) :
    getMemChars m addr n = getMemChars m' addr n := by
  unfold getMemChars
  congr 1
  exact List.map_congr_left (fun i _ => h (addr + i))

theorem memSet_agree (m m' : Mem) (h : memAgree m m') (a v : Nat) :
    memAgree (memSet m a v) (memSet m' a v) := by
  intro x
  by_cases hx : a = x
  · subst hx
    rw [memRead_memSet_self, memRead_memSet_self]
  · rw [memRead_memSet_ne m a v x hx, memRead_memSet_ne m' a v x hx]
    exact h x

theorem setMemChars_congr_aux (addr : Nat) (cs : List Char) :
    ∀ (idxs : List Nat) (m m' : Mem), memAgree m m' →
      memAgree
        (idxs.foldl (fun acc offs => memSet acc (addr + offs)
          (hexVal ((cs.drop offs).take 2))) m)
        (idxs.foldl (fun acc offs => memSet acc (addr + offs)
          (hexVal ((cs.drop offs).take 2))) m') := by
  intro idxs
  induction idxs with
  | nil => exact fun m m' h => h
  | cons i t ih =>
    intro m m' h
    rw [List.foldl_cons, List.foldl_cons]
    exact ih _ _ (memSet_agree m m' h _ _)

theorem setMemChars_congr (m m' : Mem) (h : memAgree m m') (addr : Nat)
    (cs : List Char) :
    memAgree (setMemChars m addr cs) (setMemChars m' addr cs) :=
  setMemChars_congr_aux addr cs _ m m' h

theorem applyMw_congr : ∀ (l : List (String × String)) (m m' : Mem),
    memAgree m m' →
    (applyMw m l).2 = (applyMw m' l).2 ∧
      memAgree (applyMw m l).1 (applyMw m' l).1 := by
  intro l
  induction l with
  | nil => exact fun m m' h => ⟨rfl, h⟩
  | cons av rest ih =>
    intro m m' h
    rcases av with ⟨a, hexv⟩
    rw [applyMw_cons, applyMw_cons]
    have hg := getMemChars_congr m m' h (hexstr_to_int a) (hexv.data.length / 2)
    have hs := setMemChars_congr m m' h (hexstr_to_int a) hexv.data
    obtain ⟨ih1, ih2⟩ := ih _ _ hs
    refine ⟨?_, ih2⟩
    rw [hg, ih1]

/-- The parsed addresses of a memory-write list. -/
def mwAddrs (l : List (String × String)) : List Nat :=
  l.map (fun av => hexstr_to_int av.1)

/-- All memory writes of a record are single-byte. -/
abbrev mwSingle (l : List (String × String)) : Prop :=
  ∀ av ∈ l, (av.2 : String).data.length = 2

theorem applyMw_frame :
    ∀ (l : List (String × String)) (m : Mem) (x : Nat),
      mwSingle l → x ∉ mwAddrs l →
      memRead (applyMw m l).1 x = memRead m x := by
  intro l
  induction l with
  | nil => exact fun m x _ _ => rfl
  | cons av rest ih =>
    intro m x hs hx
    rcases av with ⟨a, hexv⟩
    rw [applyMw_cons]
    have hxa : hexstr_to_int a ≠ x := by
      intro he
      exact hx (by rw [← he]; exact List.mem_cons_self _ _)
    have h2 : hexv.data.length = 2 := hs (a, hexv) (List.mem_cons_self _ _)
    rw [ih _ x (fun q hq => hs q (List.mem_cons_of_mem _ hq))
      (fun hq => hx (List.mem_cons_of_mem _ hq))]
    rw [setMemChars_pair m _ _ h2, memRead_memSet_ne m _ _ x hxa]

theorem applyMw_inverse :
    ∀ (l : List (String × String)) (m m₂ : Mem),
      (mwAddrs l).Nodup → mwSingle l → WfMemB m →
      ∀ x, memRead (applyMw m₂ (applyMw m l).2).1 x =
        if x ∈ mwAddrs l then memRead m x else memRead m₂ x := by
  intro l
  induction l with
  | nil =>
    intro m m₂ hnd hs hw x
    simp [mwAddrs, applyMw]
  | cons av rest ih =>
    intro m m₂ hnd hs hw x
    rcases av with ⟨a, hexv⟩
    rw [show mwAddrs ((a, hexv) :: rest) = hexstr_to_int a :: mwAddrs rest from rfl]
    have h2 : hexv.data.length = 2 := hs (a, hexv) (List.mem_cons_self _ _)
    have hb : memRead m (hexstr_to_int a) < 256 := memRead_lt m hw _
    have hcaplen : (String.mk (getMemChars m (hexstr_to_int a)
        (hexv.data.length / 2))).data.length = 2 := by
      rw [h2]
      show (getMemChars m (hexstr_to_int a) 1).length = 2
      rw [getMemChars_one]
      exact formatHexPad_length 2 _ (by norm_num) (by
        have : (256 : Nat) = 16 ^ 2 := by norm_num
        exact this ▸ hb)
    have hndc : (mwAddrs rest).Nodup ∧ hexstr_to_int a ∉ mwAddrs rest := by
      have := hnd
      rw [show mwAddrs ((a, hexv) :: rest) = hexstr_to_int a :: mwAddrs rest from rfl]
        at this
      exact ⟨this.of_cons, (List.nodup_cons.mp this).1⟩
    rw [applyMw_cons]
    rw [applyMw_cons m₂]
    have hcapval : hexVal (String.mk (getMemChars m (hexstr_to_int a)
        (hexv.data.length / 2))).data = memRead m (hexstr_to_int a) := by
      rw [h2]
      show hexVal (getMemChars m (hexstr_to_int a) 1) = _
      rw [getMemChars_one, hexVal_formatHexPad]
    rw [setMemChars_pair _ _ _ hcaplen, hcapval]
    have hm1wf : WfMemB (setMemChars m (hexstr_to_int a) hexv.data) :=
      setMemChars_wf m _ _ hw
    have := ih (setMemChars m (hexstr_to_int a) hexv.data)
      (memSet m₂ (hexstr_to_int a) (memRead m (hexstr_to_int a)))
      hndc.1 (fun q hq => hs q (List.mem_cons_of_mem _ hq)) hm1wf x
    rw [this]
    by_cases hx1 : x ∈ mwAddrs rest
    · rw [if_pos hx1]
      have hxa : hexstr_to_int a ≠ x := fun he => hndc.2 (he ▸ hx1)
      rw [if_pos (List.mem_cons_of_mem _ hx1)]
      rw [setMemChars_pair m _ _ h2, memRead_memSet_ne m _ _ x hxa]
    · rw [if_neg hx1]
      by_cases hx2 : x = hexstr_to_int a
      · subst hx2
        rw [memRead_memSet_self]
        rw [if_pos (List.mem_cons_self _ _)]
      · rw [memRead_memSet_ne m₂ _ _ x (fun he => hx2 he.symm)]
        rw [if_neg (by
          intro hmem
          rcases List.mem_cons.mp hmem with h1 | h1
          · exact hx2 h1
          · exact hx1 h1)]

/-! ### Register-phase lemmas -/

/-- The register indices targeted by a register-write list. -/
def rwTargets (l : List (String × Nat)) : List Nat :=
  l.filterMap (fun kv => xRegNum kv.1)

theorem applyRw_cons_some (regs : List Nat) (k : String) (v : Nat)
    (rest : List (String × Nat)) (n : Nat) (h : xRegNum k = some n) :
    applyRw regs ((k, v) :: rest) =
      ((applyRw (regs.set n v) rest).1,
       (k, regs.getD n 0) :: (applyRw (regs.set n v) rest).2) := by
  simp only [applyRw, h]

theorem applyRw_cons_none (regs : List Nat) (k : String) (v : Nat)
    (rest : List (String × Nat)) (h : xRegNum k = none) :
    applyRw regs ((k, v) :: rest) = applyRw regs rest := by
  simp only [applyRw, h]

theorem rwTargets_cons_some (k : String) (v : Nat) (rest : List (String × Nat))
    (n : Nat) (h : xRegNum k = some n) :
    rwTargets ((k, v) :: rest) = n :: rwTargets rest := by
  unfold rwTargets
  rw [List.filterMap_cons, h]

theorem rwTargets_cons_none (k : String) (v : Nat) (rest : List (String × Nat))
    (h : xRegNum k = none) :
    rwTargets ((k, v) :: rest) = rwTargets rest := by
  unfold rwTargets
  rw [List.filterMap_cons, h]

theorem applyRw_length :
    ∀ (l : List (String × Nat)) (regs : List Nat),
      ((applyRw regs l).1).length = regs.length := by
  intro l
  induction l with
  | nil => exact fun regs => rfl
  | cons kv rest ih =>
    intro regs
    rcases kv with ⟨k, v⟩
    rcases hk : xRegNum k with - | n
    · rw [applyRw_cons_none regs k v rest hk]
      exact ih regs
    · rw [applyRw_cons_some regs k v rest n hk]
      rw [show ((applyRw (regs.set n v) rest).1,
        (k, regs.getD n 0) :: (applyRw (regs.set n v) rest).2).1 =
        (applyRw (regs.set n v) rest).1 from rfl]
      rw [ih (regs.set n v), List.length_set]

theorem applyRw_frame :
    ∀ (l : List (String × Nat)) (regs : List Nat) (j d : Nat),
      j ∉ rwTargets l → ((applyRw regs l).1).getD j d = regs.getD j d := by
  intro l
  induction l with
  | nil => exact fun regs j d _ => rfl
  | cons kv rest ih =>
    intro regs j d hj
    rcases kv with ⟨k, v⟩
    rcases hk : xRegNum k with - | n
    · rw [applyRw_cons_none regs k v rest hk]
      rw [rwTargets_cons_none k v rest hk] at hj
      exact ih regs j d hj
    · rw [rwTargets_cons_some k v rest n hk] at hj
      rw [applyRw_cons_some regs k v rest n hk]
      have hnj : n ≠ j := fun he => hj (he ▸ List.mem_cons_self n _)
      rw [show ((applyRw (regs.set n v) rest).1,
        (k, regs.getD n 0) :: (applyRw (regs.set n v) rest).2).1 =
        (applyRw (regs.set n v) rest).1 from rfl]
      rw [ih (regs.set n v) j d (fun hm => hj (List.mem_cons_of_mem n hm))]
      exact getD_set_ne regs n j v d hnj

theorem applyRw_inverse :
    ∀ (l : List (String × Nat)) (regs regs₂ : List Nat),
      (rwTargets l).Nodup → (∀ n ∈ rwTargets l, n < regs.length) →
      regs₂.length = regs.length →
      ∀ j, ((applyRw regs₂ (applyRw regs l).2).1).getD j 0 =
        if j ∈ rwTargets l then regs.getD j 0 else regs₂.getD j 0 := by
  intro l
  induction l with
  | nil =>
    intro regs regs₂ hnd hb hl j
    rw [show rwTargets [] = [] from rfl, if_neg (List.not_mem_nil j)]
    rfl
  | cons kv rest ih =>
    intro regs regs₂ hnd hb hl j
    rcases kv with ⟨k, v⟩
    rcases hk : xRegNum k with - | n
    · rw [applyRw_cons_none regs k v rest hk,
        rwTargets_cons_none k v rest hk]
      rw [rwTargets_cons_none k v rest hk] at hnd hb
      exact ih regs regs₂ hnd hb hl j
    · rw [rwTargets_cons_some k v rest n hk] at hnd hb ⊢
      rw [applyRw_cons_some regs k v rest n hk]
      rw [show ((applyRw (regs.set n v) rest).1,
        (k, regs.getD n 0) :: (applyRw (regs.set n v) rest).2).2 =
        (k, regs.getD n 0) :: (applyRw (regs.set n v) rest).2 from rfl]
      rw [applyRw_cons_some regs₂ k (regs.getD n 0) _ n hk]
      rw [show ((applyRw (regs₂.set n (regs.getD n 0))
          ((applyRw (regs.set n v) rest).2)).1,
        (k, regs₂.getD n 0) :: (applyRw (regs₂.set n (regs.getD n 0))
          ((applyRw (regs.set n v) rest).2)).2).1 =
        (applyRw (regs₂.set n (regs.getD n 0))
          ((applyRw (regs.set n v) rest).2)).1 from rfl]
      have hnn : n ∉ rwTargets rest := (List.nodup_cons.mp hnd).1
      have hnlt : n < regs.length := hb n (List.mem_cons_self n _)
      have hih := ih (regs.set n v) (regs₂.set n (regs.getD n 0))
        (List.nodup_cons.mp hnd).2
        (fun m hm => by rw [List.length_set]; exact hb m (List.mem_cons_of_mem n hm))
        (by rw [List.length_set, List.length_set]; exact hl) j
      rw [hih]
      by_cases hjr : j ∈ rwTargets rest
      · have hjn : n ≠ j := fun he => hnn (he ▸ hjr)
        rw [if_pos hjr, if_pos (List.mem_cons_of_mem n hjr)]
        exact getD_set_ne regs n j v 0 hjn
      · rw [if_neg hjr]
        by_cases hjn : j = n
        · subst hjn
          rw [if_pos (List.mem_cons_self j _)]
          exact getD_set_self regs₂ j (regs.getD j 0) 0 (hl ▸ hnlt)
        · rw [if_neg (fun hm => by
            rcases List.mem_cons.mp hm with he | hm'
            · exact hjn he
            · exact hjr hm')]
          exact getD_set_ne regs₂ n j (regs.getD n 0) 0 (fun he => hjn he.symm)

/-! ### Observational equality and well-formedness (for C1/C3) -/

/-- Observational equality of CPU states: same architecture parameters, the
same register file, and the same byte at every address as seen through
`get_mem` (the memory dicts may differ in binding order and in whether a
sentinel-valued cell was ever materialized). -/
def obsEq (a b : CpuState) : Prop :=
  a.NUM_REGISTERS = b.NUM_REGISTERS ∧ a.PC_REG = b.PC_REG ∧
  a.registers = b.registers ∧ ∀ x, memRead a.memory x = memRead b.memory x

theorem obsEq_refl (a : CpuState) : obsEq a a := ⟨rfl, rfl, rfl, fun _ => rfl⟩

theorem obsEq_symm {a b : CpuState} (h : obsEq a b) : obsEq b a :=
  ⟨h.1.symm, h.2.1.symm, h.2.2.1.symm, fun x => (h.2.2.2 x).symm⟩

theorem obsEq_trans {a b c : CpuState} (h1 : obsEq a b) (h2 : obsEq b c) :
    obsEq a c :=
  ⟨h1.1.trans h2.1, h1.2.1.trans h2.2.1, h1.2.2.1.trans h2.2.2.1,
   fun x => (h1.2.2.2 x).trans (h2.2.2.2 x)⟩

theorem obsEq_pc {a b : CpuState} (h : obsEq a b) : a.pc = b.pc := by
  unfold CpuState.pc
  rw [h.2.1, h.2.2.1]

/-- Well-formed CPU state: the PC index is inside the register file, the
register file has the advertised width, and every stored memory byte fits in
a byte. -/
abbrev CpuWf (s : CpuState) : Prop :=
  s.PC_REG < s.registers.length ∧ s.registers.length = s.NUM_REGISTERS ∧
  WfMemB s.memory

/-- Well-formed register-write block: every `x`-prefixed key has a decimal
tail (in the source a non-decimal tail raises `ValueError`), the targeted
register numbers are pairwise distinct, in range, and none is the PC. -/
abbrev rwWf (numRegs pcReg : Nat) (o : Option (List (String × Nat))) : Prop :=
  (rwTargets (o.getD [])).Nodup ∧
  (∀ kv ∈ o.getD [], kv.1.data.headD ' ' = 'x' → ¬ xRegNum kv.1 = none) ∧
  (∀ n ∈ rwTargets (o.getD []), n < numRegs ∧ ¬ n = pcReg)

/-- Well-formed memory-write block: pairwise distinct addresses, each write
a single byte (two hex characters), and all address/value text hexadecimal
with a nonempty address. -/
abbrev mwWf (o : Option (List (String × String))) : Prop :=
  (mwAddrs (o.getD [])).Nodup ∧ mwSingle (o.getD []) ∧
  (∀ av ∈ o.getD [], (¬ av.1.data = []) ∧ (∀ c ∈ av.1.data, isHexChar c = true) ∧
    (∀ c ∈ av.2.data, isHexChar c = true))

abbrev EntryWf (numRegs pcReg : Nat) (e : TraceEntry) : Prop :=
  rwWf numRegs pcReg e.rw ∧ mwWf e.mw

abbrev TraceWf (numRegs pcReg : Nat) (tr : List TraceEntry) : Prop :=
  ∀ e ∈ tr, EntryWf numRegs pcReg e

/-- Normal form of the updated state. -/
theorem update_fst (s : CpuState) (e : TraceEntry) :
    (CpuState.update s e).1 =
      { s with
        registers := ((applyRw (s.registers.set s.PC_REG e.pc) (e.rw.getD [])).1),
        memory := ((applyMw s.memory (e.mw.getD [])).1) } := by
  rcases e with ⟨p, o1, o2⟩
  cases o1 <;> cases o2 <;> rfl

/-- Normal form of the reverse trace entry. -/
theorem update_snd (s : CpuState) (e : TraceEntry) :
    (CpuState.update s e).2 =
      ⟨s.pc,
       e.rw.map (fun l => (applyRw (s.registers.set s.PC_REG e.pc) l).2),
       e.mw.map (fun l => (applyMw s.memory l).2)⟩ := by
  rcases e with ⟨p, o1, o2⟩
  cases o1 <;> cases o2 <;> rfl

theorem map_getD_applyRw (A : List Nat) (o : Option (List (String × Nat))) :
    (o.map (fun l => (applyRw A l).2)).getD [] = (applyRw A (o.getD [])).2 := by
  cases o <;> rfl

theorem map_getD_applyMw (m : Mem) (o : Option (List (String × String))) :
    (o.map (fun l => (applyMw m l).2)).getD [] = (applyMw m (o.getD [])).2 := by
  cases o <;> rfl

theorem update_NUM (s : CpuState) (e : TraceEntry) :
    (CpuState.update s e).1.NUM_REGISTERS = s.NUM_REGISTERS := by
  rw [update_fst]

theorem update_PCR (s : CpuState) (e : TraceEntry) :
    (CpuState.update s e).1.PC_REG = s.PC_REG := by
  rw [update_fst]

theorem update_regs_len (s : CpuState) (e : TraceEntry) :
    (CpuState.update s e).1.registers.length = s.registers.length := by
  rw [update_fst]
  show (applyRw (s.registers.set s.PC_REG e.pc) (e.rw.getD [])).1.length = _
  rw [applyRw_length, List.length_set]

theorem update_wf (s : CpuState) (e : TraceEntry) (h : CpuWf s) :
    CpuWf (CpuState.update s e).1 := by
  obtain ⟨hpc, hlen, hmem⟩ := h
  refine ⟨?_, ?_, ?_⟩
  · rw [update_PCR, update_regs_len]
    exact hpc
  · rw [update_regs_len, update_NUM]
    exact hlen
  · rw [update_fst]
    show WfMemB (applyMw s.memory (e.mw.getD [])).1
    exact applyMw_wf _ _ hmem

/-- Round trip of the register phase: applying the reverse-write list
restores the original register file exactly, provided targets are distinct,
in range, and avoid the PC. -/
theorem regs_roundtrip (regs : List Nat) (pcReg p : Nat) (l : List (String × Nat))
    (hpc : pcReg < regs.length)
    (hnd : (rwTargets l).Nodup)
    (hb : ∀ n ∈ rwTargets l, n < regs.length ∧ ¬ n = pcReg) :
    (applyRw (((applyRw (regs.set pcReg p) l).1).set pcReg (regs.getD pcReg 0))
        ((applyRw (regs.set pcReg p) l).2)).1 = regs := by
  apply list_ext_getD
  · rw [applyRw_length, List.length_set, applyRw_length, List.length_set]
  · intro j hj
    have hinv := applyRw_inverse l (regs.set pcReg p)
      (((applyRw (regs.set pcReg p) l).1).set pcReg (regs.getD pcReg 0)) hnd
      (fun n hn => by rw [List.length_set]; exact (hb n hn).1)
      (by rw [List.length_set, applyRw_length, List.length_set]) j
    rw [hinv]
    by_cases hjt : j ∈ rwTargets l
    · rw [if_pos hjt]
      exact getD_set_ne regs pcReg j p 0 (fun he => (hb j hjt).2 he.symm)
    · rw [if_neg hjt]
      by_cases hjp : j = pcReg
      · subst hjp
        exact getD_set_self _ j _ 0 (by rw [applyRw_length, List.length_set]; exact hpc)
      · rw [getD_set_ne _ pcReg j _ 0 (fun he => hjp he.symm),
          applyRw_frame l (regs.set pcReg p) j 0 hjt,
          getD_set_ne regs pcReg j p 0 (fun he => hjp he.symm)]

/-- Round trip of the memory phase: applying the reverse-write list restores
every observed byte, provided addresses are distinct and every write is a
single byte. -/
theorem mem_roundtrip (m : Mem) (l : List (String × String))
    (hm : WfMemB m) (hnd : (mwAddrs l).Nodup) (hs : mwSingle l) :
    ∀ x, memRead (applyMw (applyMw m l).1 ((applyMw m l).2)).1 x = memRead m x := by
  intro x
  rw [applyMw_inverse l m (applyMw m l).1 hnd hs hm x]
  by_cases hx : x ∈ mwAddrs l
  · rw [if_pos hx]
  · rw [if_neg hx]
    exact applyMw_frame l m x hs hx

/-- Per-record reversibility: on a well-formed state and a well-formed
record, `update` followed by applying the reverse entry it returned restores
the state observationally. -/
theorem update_reverse (s : CpuState) (e : TraceEntry)
    (hwf : CpuWf s) (he : EntryWf s.NUM_REGISTERS s.PC_REG e) :
    obsEq ((CpuState.update (CpuState.update s e).1 (CpuState.update s e).2).1) s := by
  obtain ⟨hpc, hlen, hmem⟩ := hwf
  obtain ⟨⟨hnd, -, hb⟩, hmnd, hms, -⟩ := he
  rw [update_fst s e, update_snd s e, update_fst]
  dsimp only [CpuState.pc]
  rw [map_getD_applyRw, map_getD_applyMw]
  refine ⟨rfl, rfl, ?_, ?_⟩
  · exact regs_roundtrip s.registers s.PC_REG e.pc (e.rw.getD []) hpc hnd
      (fun n hn => ⟨by rw [hlen]; exact (hb n hn).1, (hb n hn).2⟩)
  · exact mem_roundtrip s.memory (e.mw.getD []) hmem hmnd hms

/-- `update` is a congruence for observational equality, and the reverse
entries produced from observationally equal states are identical. -/
theorem update_congr (a b : CpuState) (e : TraceEntry) (h : obsEq a b) :
    obsEq (CpuState.update a e).1 (CpuState.update b e).1 ∧
      (CpuState.update a e).2 = (CpuState.update b e).2 := by
  obtain ⟨h1, h2, h3, h4⟩ := h
  have hmw2 : ∀ (o : Option (List (String × String))),
      o.map (fun l => (applyMw a.memory l).2) =
        o.map (fun l => (applyMw b.memory l).2) := by
    intro o
    cases o with
    | none => rfl
    | some l =>
      show some (applyMw a.memory l).2 = some (applyMw b.memory l).2
      rw [(applyMw_congr l a.memory b.memory h4).1]
  constructor
  · rw [update_fst a e, update_fst b e]
    refine ⟨h1, h2, ?_, ?_⟩
    · show (applyRw (a.registers.set a.PC_REG e.pc) (e.rw.getD [])).1 =
        (applyRw (b.registers.set b.PC_REG e.pc) (e.rw.getD [])).1
      rw [h2, h3]
    · intro x
      show memRead (applyMw a.memory (e.mw.getD [])).1 x =
        memRead (applyMw b.memory (e.mw.getD [])).1 x
      exact (applyMw_congr (e.mw.getD []) a.memory b.memory h4).2 x
  · rw [update_snd a e, update_snd b e]
    rw [show a.pc = b.pc from obsEq_pc ⟨h1, h2, h3, h4⟩, h2, h3, hmw2 e.mw]

/-! ### Canonical replay and the session invariant -/

/-- The canonical CPU state after replaying the first `i` trace records. -/
def canonCpu (cpu0 : CpuState) (tr : List TraceEntry) : Nat → CpuState
  | 0 => cpu0
  | i + 1 => (CpuState.update (canonCpu cpu0 tr i) (tr.getD i default)).1

/-- The canonical reverse delta for index `i`: the one produced by applying
record `i` to the canonical state at `i`. -/
def canonRev (cpu0 : CpuState) (tr : List TraceEntry) (i : Nat) : TraceEntry :=
  (CpuState.update (canonCpu cpu0 tr i) (tr.getD i default)).2

theorem canon_NUM (cpu0 : CpuState) (tr : List TraceEntry) :
    ∀ i, (canonCpu cpu0 tr i).NUM_REGISTERS = cpu0.NUM_REGISTERS ∧
      (canonCpu cpu0 tr i).PC_REG = cpu0.PC_REG := by
  intro i
  induction i with
  | zero => exact ⟨rfl, rfl⟩
  | succ j ih =>
    refine ⟨?_, ?_⟩
    · show (CpuState.update (canonCpu cpu0 tr j) (tr.getD j default)).1.NUM_REGISTERS = _
      rw [update_NUM]
      exact ih.1
    · show (CpuState.update (canonCpu cpu0 tr j) (tr.getD j default)).1.PC_REG = _
      rw [update_PCR]
      exact ih.2

theorem canon_wf (cpu0 : CpuState) (tr : List TraceEntry) (h0 : CpuWf cpu0) :
    ∀ i, CpuWf (canonCpu cpu0 tr i) := by
  intro i
  induction i with
  | zero => exact h0
  | succ j ih => exact update_wf (canonCpu cpu0 tr j) (tr.getD j default) ih

theorem getD_mem_of_lt {α : Type} (l : List α) (d : α) (i : Nat)
    (h : i < l.length) : l.getD i d ∈ l := by
  rw [List.getD_eq_getElem l d h]
  exact List.getElem_mem h

/-- One session transition: the server either executes `_step_inner` or
`_reverse_step_inner` (the `c`, `s`, `bc`, `bs` and `vCont` handlers are
all composed from these two). -/
inductive SessionStep : ServerState → ServerState → Prop
  | fwd (S : ServerState) : SessionStep S (step_inner S).1
  | bwd (S : ServerState) : SessionStep S (reverse_step_inner S).1

/-- Reachability from the initial server state by any path of forward and
reverse steps. -/
def SessReach (S0 S : ServerState) : Prop :=
  Relation.ReflTransGen SessionStep S0 S

/-- The session invariant: the cursor is in bounds, the CPU state is
observationally the canonical replay state at the cursor, and every
reverse-delta slot below the cursor holds the canonical delta. -/
def SessInv (cpu0 : CpuState) (tr : List TraceEntry) (S : ServerState) : Prop :=
  S.trace = tr ∧ S.trace_idx ≤ tr.length ∧ S.rev_trace.length = tr.length ∧
  obsEq S.cpu_state (canonCpu cpu0 tr S.trace_idx) ∧
  ∀ i, i < S.trace_idx → S.rev_trace.getD i default = canonRev cpu0 tr i

theorem step_inner_go (S : ServerState) (h : ¬ S.trace.length ≤ S.trace_idx) :
    step_inner S =
      ({ S with
         cpu_state := ((S.cpu_state.update (S.trace.getD S.trace_idx default)).1),
         rev_trace := (S.rev_trace.set S.trace_idx
           (S.cpu_state.update (S.trace.getD S.trace_idx default)).2),
         trace_idx := S.trace_idx + 1 }, true) := by
  unfold step_inner
  rw [if_neg h]

theorem reverse_step_inner_go (S : ServerState) (h : ¬ S.trace_idx = 0) :
    reverse_step_inner S =
      ({ S with
         trace_idx := S.trace_idx - 1,
         cpu_state := ((S.cpu_state.update
           (S.rev_trace.getD (S.trace_idx - 1) default)).1) }, true) := by
  unfold reverse_step_inner
  rw [if_neg h]

theorem reverse_step_inner_rev (S : ServerState) :
    (reverse_step_inner S).1.rev_trace = S.rev_trace := by
  unfold reverse_step_inner
  split <;> rfl

theorem sessInv_fwd (cpu0 : CpuState) (tr : List TraceEntry) (S : ServerState)
    (h : SessInv cpu0 tr S) : SessInv cpu0 tr (step_inner S).1 := by
  obtain ⟨htre, hidx, hrl, hobs, hrev⟩ := h
  by_cases hend : S.trace.length ≤ S.trace_idx
  · rw [step_inner_stop S hend]
    exact ⟨htre, hidx, hrl, hobs, hrev⟩
  · rw [step_inner_go S hend]
    have hlt : S.trace_idx < tr.length := by
      rw [← htre]
      exact Nat.lt_of_not_le hend
    have hentry : S.trace.getD S.trace_idx default = tr.getD S.trace_idx default := by
      rw [htre]
    refine ⟨htre, hlt, ?_, ?_, ?_⟩
    · show (S.rev_trace.set S.trace_idx
        (S.cpu_state.update (S.trace.getD S.trace_idx default)).2).length = tr.length
      rw [List.length_set]
      exact hrl
    · show obsEq (S.cpu_state.update (S.trace.getD S.trace_idx default)).1
        ((CpuState.update (canonCpu cpu0 tr S.trace_idx) (tr.getD S.trace_idx default)).1)
      rw [hentry]
      exact (update_congr S.cpu_state (canonCpu cpu0 tr S.trace_idx)
        (tr.getD S.trace_idx default) hobs).1
    · intro i hi
      show (S.rev_trace.set S.trace_idx
        (S.cpu_state.update (S.trace.getD S.trace_idx default)).2).getD i default =
          canonRev cpu0 tr i
      by_cases hieq : i = S.trace_idx
      · rw [hieq]
        rw [getD_set_self S.rev_trace S.trace_idx
          ((S.cpu_state.update (S.trace.getD S.trace_idx default)).2) default
          (by rw [hrl]; exact hlt)]
        rw [hentry]
        exact (update_congr S.cpu_state (canonCpu cpu0 tr S.trace_idx)
          (tr.getD S.trace_idx default) hobs).2
      · rw [getD_set_ne S.rev_trace S.trace_idx i
          ((S.cpu_state.update (S.trace.getD S.trace_idx default)).2) default
          (fun he => hieq he.symm)]
        exact hrev i (Nat.lt_of_le_of_ne (Nat.lt_succ_iff.mp hi) hieq)

theorem sessInv_bwd (cpu0 : CpuState) (tr : List TraceEntry)
    (h0 : CpuWf cpu0) (htr : TraceWf cpu0.NUM_REGISTERS cpu0.PC_REG tr)
    (S : ServerState) (h : SessInv cpu0 tr S) :
    SessInv cpu0 tr (reverse_step_inner S).1 := by
  obtain ⟨htre, hidx, hrl, hobs, hrev⟩ := h
  by_cases hz : S.trace_idx = 0
  · rw [reverse_step_inner_stop S hz]
    exact ⟨htre, hidx, hrl, hobs, hrev⟩
  · rw [reverse_step_inner_go S hz]
    obtain ⟨j, hj⟩ : ∃ j, S.trace_idx = j + 1 :=
      ⟨S.trace_idx - 1, (Nat.succ_pred_eq_of_pos (Nat.pos_of_ne_zero hz)).symm⟩
    rw [hj] at hidx hobs
    have hjlt : j < tr.length := Nat.lt_of_lt_of_le (Nat.lt_succ_self j) hidx
    refine ⟨htre, ?_, hrl, ?_, ?_⟩
    · show S.trace_idx - 1 ≤ tr.length
      omega
    · show obsEq (S.cpu_state.update
        (S.rev_trace.getD (S.trace_idx - 1) default)).1
        (canonCpu cpu0 tr (S.trace_idx - 1))
      rw [hj]
      simp only [Nat.add_sub_cancel]
      rw [hrev j (by omega)]
      have hcg := (update_congr S.cpu_state (canonCpu cpu0 tr (j + 1))
        (canonRev cpu0 tr j) hobs).1
      have hewf : EntryWf (canonCpu cpu0 tr j).NUM_REGISTERS
          (canonCpu cpu0 tr j).PC_REG (tr.getD j default) := by
        rw [(canon_NUM cpu0 tr j).1, (canon_NUM cpu0 tr j).2]
        exact htr (tr.getD j default) (getD_mem_of_lt tr default j hjlt)
      have hrt : obsEq ((CpuState.update (canonCpu cpu0 tr (j + 1))
          (canonRev cpu0 tr j)).1) (canonCpu cpu0 tr j) := by
        show obsEq ((CpuState.update
          (CpuState.update (canonCpu cpu0 tr j) (tr.getD j default)).1
          (CpuState.update (canonCpu cpu0 tr j) (tr.getD j default)).2).1)
          (canonCpu cpu0 tr j)
        exact update_reverse (canonCpu cpu0 tr j) (tr.getD j default)
          (canon_wf cpu0 tr h0 j) hewf
      exact obsEq_trans hcg hrt
    · intro i hi
      have hi2 : i < S.trace_idx - 1 := hi
      show S.rev_trace.getD i default = canonRev cpu0 tr i
      exact hrev i (by omega)

theorem sessInv_base (cpu0 : CpuState) (tr : List TraceEntry) :
    SessInv cpu0 tr (mkServer tr cpu0) := by
  refine ⟨rfl, Nat.zero_le _, ?_, ?_, ?_⟩
  · show (tr.map (fun _ => emptyRev)).length = tr.length
    rw [List.length_map]
  · exact obsEq_refl cpu0
  · intro i hi
    exact absurd hi (Nat.not_lt_zero i)

theorem sessReach_inv (cpu0 : CpuState) (tr : List TraceEntry)
    (h0 : CpuWf cpu0) (htr : TraceWf cpu0.NUM_REGISTERS cpu0.PC_REG tr)
    (S : ServerState) (h : SessReach (mkServer tr cpu0) S) :
    SessInv cpu0 tr S := by
  induction h with
  | refl => exact sessInv_base cpu0 tr
  | tail hab hbc ih =>
    cases hbc with
    | fwd => exact sessInv_fwd cpu0 tr _ ih
    | bwd => exact sessInv_bwd cpu0 tr h0 htr _ ih

/-! ### C1 and C3 -/

/-- **C1** (corrected).  For well-formed states and trace records (register
writes target pairwise distinct, in-range, non-PC `x`-registers; memory
writes are single-byte at pairwise distinct hex addresses), applying a
record via `CpuState.update` and then applying the reverse entry it
returned restores the state as observed through `pc`, the register file and
`get_mem`; and any two paths of forward/reverse cursor steps from the
initial server state ending at the same cursor index yield observationally
equal CPU states.  (With a multi-byte memory write the round trip fails:
`set_mem` slides its hex slice one character per byte.) -/
theorem c1_reversibility (cpu0 : CpuState) (tr : List TraceEntry)
    (S1 S2 : ServerState)
    (h0 : CpuWf cpu0) (htr : TraceWf cpu0.NUM_REGISTERS cpu0.PC_REG tr)
    (h1 : SessReach (mkServer tr cpu0) S1) (h2 : SessReach (mkServer tr cpu0) S2)
    (hidx : S1.trace_idx = S2.trace_idx) :
    (∀ (s : CpuState) (e : TraceEntry), CpuWf s →
      EntryWf s.NUM_REGISTERS s.PC_REG e →
      obsEq ((CpuState.update (CpuState.update s e).1 (CpuState.update s e).2).1) s) ∧
    obsEq S1.cpu_state S2.cpu_state := by
  refine ⟨fun s e hs he => update_reverse s e hs he, ?_⟩
  have i1 := (sessReach_inv cpu0 tr h0 htr S1 h1).2.2.2.1
  have i2 := (sessReach_inv cpu0 tr h0 htr S2 h2).2.2.2.1
  rw [hidx] at i1
  exact obsEq_trans i1 (obsEq_symm i2)

theorem c1_reversibility_witness :
    CpuWf (CpuState.init 2 1 0) ∧
    TraceWf (CpuState.init 2 1 0).NUM_REGISTERS (CpuState.init 2 1 0).PC_REG
      [⟨4, some [("x0", 7)], some [("100", "ab")]⟩] ∧
    obsEq (mkServer [⟨4, some [("x0", 7)], some [("100", "ab")]⟩]
        (CpuState.init 2 1 0)).cpu_state
      ((reverse_step_inner (step_inner (mkServer
        [⟨4, some [("x0", 7)], some [("100", "ab")]⟩]
        (CpuState.init 2 1 0))).1).1).cpu_state :=
  ⟨by decide, by decide,
   (c1_reversibility (CpuState.init 2 1 0)
      [⟨4, some [("x0", 7)], some [("100", "ab")]⟩]
      (mkServer [⟨4, some [("x0", 7)], some [("100", "ab")]⟩]
        (CpuState.init 2 1 0))
      ((reverse_step_inner (step_inner (mkServer
        [⟨4, some [("x0", 7)], some [("100", "ab")]⟩]
        (CpuState.init 2 1 0))).1).1)
      (by decide) (by decide)
      Relation.ReflTransGen.refl
      (Relation.ReflTransGen.tail (Relation.ReflTransGen.tail
        Relation.ReflTransGen.refl (SessionStep.fwd _)) (SessionStep.bwd _))
      (by decide)).2⟩

/-- **C1** counterexample: with a two-byte memory write the round trip does
not restore the state.  `set_mem` slides its slice one character per byte,
so forward writes `aa`, `ab` and the reverse delta `caca` writes back `ca`,
`ac` — address 0x101 ends at 0xac instead of the original sentinel 0xca. -/
theorem c1_counterexample :
    ¬ obsEq ((CpuState.update
        (CpuState.update (CpuState.init 1 0 0)
          ⟨1, none, some [("100", "aabb")]⟩).1
        (CpuState.update (CpuState.init 1 0 0)
          ⟨1, none, some [("100", "aabb")]⟩).2).1)
      (CpuState.init 1 0 0) :=
  fun h => absurd (h.2.2.2 257) (by decide)

/-- **C3** (corrected).  Reverse motion never writes the reverse-delta
buffer.  Forward execution of the record at the cursor stores the canonical
delta for that index into `rev_trace` — it re-writes the slot on every
execution, not only the first, but under the well-formedness conditions the
value written is always the same — and when the slot already holds the
canonical delta the write leaves the buffer unchanged. -/
theorem c3_reverse_delta_write_once (cpu0 : CpuState) (tr : List TraceEntry)
    (S : ServerState)
    (h0 : CpuWf cpu0) (htr : TraceWf cpu0.NUM_REGISTERS cpu0.PC_REG tr)
    (hS : SessReach (mkServer tr cpu0) S) (hlt : S.trace_idx < tr.length) :
    (∀ T : ServerState, (reverse_step_inner T).1.rev_trace = T.rev_trace) ∧
    ((step_inner S).1.rev_trace.getD S.trace_idx default =
      canonRev cpu0 tr S.trace_idx) ∧
    (S.rev_trace.getD S.trace_idx default = canonRev cpu0 tr S.trace_idx →
      (step_inner S).1.rev_trace = S.rev_trace) := by
  obtain ⟨htre, hidx, hrl, hobs, hrev⟩ := sessReach_inv cpu0 tr h0 htr S hS
  have hend : ¬ S.trace.length ≤ S.trace_idx := by
    rw [htre]
    omega
  have hval : (S.cpu_state.update (S.trace.getD S.trace_idx default)).2 =
      canonRev cpu0 tr S.trace_idx := by
    rw [show S.trace.getD S.trace_idx default = tr.getD S.trace_idx default
      from by rw [htre]]
    exact (update_congr S.cpu_state (canonCpu cpu0 tr S.trace_idx)
      (tr.getD S.trace_idx default) hobs).2
  refine ⟨reverse_step_inner_rev, ?_, ?_⟩
  · rw [step_inner_go S hend]
    show (S.rev_trace.set S.trace_idx
      (S.cpu_state.update (S.trace.getD S.trace_idx default)).2).getD
        S.trace_idx default = canonRev cpu0 tr S.trace_idx
    rw [getD_set_self S.rev_trace S.trace_idx
      ((S.cpu_state.update (S.trace.getD S.trace_idx default)).2) default
      (by rw [hrl]; exact hlt), hval]
  · intro hprev
    rw [step_inner_go S hend]
    show S.rev_trace.set S.trace_idx
      (S.cpu_state.update (S.trace.getD S.trace_idx default)).2 = S.rev_trace
    rw [hval, ← hprev]
    exact set_getD_eq S.rev_trace S.trace_idx default (by rw [hrl]; exact hlt)

theorem c3_reverse_delta_write_once_witness :
    CpuWf (CpuState.init 2 1 0) ∧
    TraceWf (CpuState.init 2 1 0).NUM_REGISTERS (CpuState.init 2 1 0).PC_REG
      [⟨9, some [("x0", 3)], none⟩] ∧
    (step_inner (mkServer [⟨9, some [("x0", 3)], none⟩]
        (CpuState.init 2 1 0))).1.rev_trace.getD 0 default =
      canonRev (CpuState.init 2 1 0) [⟨9, some [("x0", 3)], none⟩] 0 :=
  ⟨by decide, by decide,
   (c3_reverse_delta_write_once (CpuState.init 2 1 0)
      [⟨9, some [("x0", 3)], none⟩]
      (mkServer [⟨9, some [("x0", 3)], none⟩] (CpuState.init 2 1 0))
      (by decide) (by decide) Relation.ReflTransGen.refl (by decide)).2.1⟩

/-- **C3** counterexample: after stepping forward, backward and forward
again over a record with a two-byte memory write, the second forward
execution of step 0 stores a different reverse delta (`caac`) than the
first (`caca`), so re-execution does not leave `rev_trace` unchanged. -/
theorem c3_counterexample :
    (step_inner (reverse_step_inner (step_inner (mkServer
        [⟨1, none, some [("100", "aabb")]⟩]
        (CpuState.init 1 0 0))).1).1).1.rev_trace ≠
      (step_inner (mkServer [⟨1, none, some [("100", "aabb")]⟩]
        (CpuState.init 1 0 0))).1.rev_trace := by
  decide
